import Mathlib

/-!
Verification of the JobApplicationFiller core engines.

Shallow embedding of the repository's heuristic engines:

* `resumeParser.js` (src/unnamed/part_000): section segmentation, per-section
  pattern-cascade extraction, completeness analysis (`identifyMissingFields`),
  file-format dispatch (`parseResume`).
* `index.js` content script: `createFormMappings` field classification and
  `autoFillApplication`.
* `jobApplicationBot.js`: `handleAuthentication` / `handleGenericLogin`.
* `cvUtils.js`: `importCVJson` / `convertToUserData`.

Text is modelled as `List Char`.  The JavaScript regexes are translated one by
one into executable matching functions that reproduce the engine's leftmost
match, ordered alternation, greedy / lazy quantifier and backtracking
behaviour for the exact patterns appearing in the source.
-/

set_option maxRecDepth 10000

namespace JobApp

abbrev Chars := List Char

def str (s : String) : Chars := s.data

def strOf (cs : Chars) : String := String.mk cs

/-- The ASCII members of the JavaScript `\s` class (space, tab, LF, VT, FF, CR);
also the characters stripped by `String.prototype.trim` on the inputs considered. -/
def isWS (c : Char) : Bool :=
  c == ' ' || c == '\t' || c == '\n' || c == '\r' || c == Char.ofNat 11 || c == Char.ofNat 12

/-- JS `word character` for `\b` boundaries: `[A-Za-z0-9_]`. -/
def isWordChar (c : Char) : Bool :=
  (('a' ≤ c && c ≤ 'z') || ('A' ≤ c && c ≤ 'Z') || ('0' ≤ c && c ≤ '9') || c == '_')

def isDigitCh (c : Char) : Bool := '0' ≤ c && c ≤ '9'

def isUpperCh (c : Char) : Bool := 'A' ≤ c && c ≤ 'Z'

def isLowerCh (c : Char) : Bool := 'a' ≤ c && c ≤ 'z'

def isAlphaCh (c : Char) : Bool := isUpperCh c || isLowerCh c

/-- `[A-Za-z\s]` -/
def isAlphaWS (c : Char) : Bool := isAlphaCh c || isWS c

/-- `.toLowerCase()` on a character (ASCII, as in the repo's inputs). -/
def lc (c : Char) : Char := c.toLower

def lowerStr (cs : Chars) : Chars := cs.map lc

/-- Case-insensitive literal match at the head of `s`; `tok` is given in
lowercase.  On success returns the consumed source characters and the rest. -/
def ciSplit : Chars → Chars → Option (Chars × Chars)
  | [], s => some ([], s)
  | _ :: _, [] => none
  | a :: as, b :: bs =>
    if a == lc b then
      match ciSplit as bs with
      | some (h, r) => some (b :: h, r)
      | none => none
    else none

/-- Case-sensitive literal match at the head. -/
def csStarts : Chars → Chars → Bool
  | [], _ => true
  | _ :: _, [] => false
  | a :: as, b :: bs => a == b && csStarts as bs

/-- JS `String.prototype.includes` (case-sensitive substring). -/
def containsSub (pat : Chars) : Chars → Bool
  | [] => csStarts pat []
  | c :: tl => csStarts pat (c :: tl) || containsSub pat tl

/-- JS `String.prototype.indexOf`. -/
def indexOfSub (pat : Chars) : Chars → Option Nat
  | [] => if csStarts pat [] then some 0 else none
  | c :: tl =>
    if csStarts pat (c :: tl) then some 0
    else (indexOfSub pat tl).map (· + 1)

def firstSome (f : α → Option β) : List α → Option β
  | [] => none
  | a :: as =>
    match f a with
    | some b => some b
    | none => firstSome f as

/-- Ordered alternation of case-insensitive literals at the head of `s`
(the JS regex engine tries the alternatives left to right). -/
def hitAt (toks : List Chars) (s : Chars) : Option (Chars × Chars) :=
  firstSome (fun tok => ciSplit tok s) toks

/-- Leftmost occurrence of any of the alternation literals: returns the text
before the hit, the hit itself (source characters) and the rest. -/
def splitTok (toks : List Chars) : Chars → Option (Chars × Chars × Chars)
  | [] =>
    match hitAt toks [] with
    | some (h, r) => some ([], h, r)
    | none => none
  | c :: tl =>
    match hitAt toks (c :: tl) with
    | some (h, r) => some ([], h, r)
    | none =>
      match splitTok toks tl with
      | some (p, h, r) => some (c :: p, h, r)
      | none => none

/-- Whether any alternation literal occurs (case-insensitively) in `s`. -/
def hasTok (toks : List Chars) (s : Chars) : Bool := (splitTok toks s).isSome

/-- `String.prototype.trim` over character lists. -/
def trimChars (cs : Chars) : Chars :=
  ((cs.dropWhile isWS).reverse.dropWhile isWS).reverse

/-- Semantics of the section regexes of resumeParser.js, all of shape
`/(?:O1|O2|..)(?:[\s\S]*?)(?:C1|C2|..|$)/i`: `match[0]` runs from the leftmost
opener occurrence through the earliest closer occurrence after it (the closer
token is part of the match), or to the end of the text when no closer occurs
(the `$` alternative). -/
def sectionCapture (openers closers : List Chars) (t : Chars) : Option Chars :=
  match splitTok openers t with
  | none => none
  | some (_, op, r1) =>
    match splitTok closers r1 with
    | some (mid, cl, _) => some (op ++ mid ++ cl)
    | none => some (op ++ r1)

/-- `/(?:EDUCATION|ACADEMIC BACKGROUND|QUALIFICATIONS)/i` openers. -/
def eduOpen : List Chars := [str "education", str "academic background", str "qualifications"]

/-- `(?:EXPERIENCE|EMPLOYMENT|WORK|SKILLS|$)` closers of the education section. -/
def eduClose : List Chars := [str "experience", str "employment", str "work", str "skills"]

/-- `/(?:EXPERIENCE|EMPLOYMENT|WORK HISTORY|PROFESSIONAL BACKGROUND)/i` openers. -/
def expOpen : List Chars :=
  [str "experience", str "employment", str "work history", str "professional background"]

/-- `(?:EDUCATION|SKILLS|AWARDS|LANGUAGES|$)` closers of the experience section. -/
def expClose : List Chars := [str "education", str "skills", str "awards", str "languages"]

/-- `/(?:SKILLS|TECHNICAL SKILLS|CORE COMPETENCIES)/i` openers. -/
def skillsOpen : List Chars := [str "skills", str "technical skills", str "core competencies"]

/-- `(?:LANGUAGES|EXPERIENCE|EDUCATION|CERTIFICATIONS|$)` closers of the skills section. -/
def skillsClose : List Chars :=
  [str "languages", str "experience", str "education", str "certifications"]

/-- `/(?:LANGUAGES|LANGUAGE PROFICIENCY)/i` openers. -/
def langOpen : List Chars := [str "languages", str "language proficiency"]

/-- `(?:SKILLS|EXPERIENCE|EDUCATION|CERTIFICATIONS|$)` closers of the languages section. -/
def langClose : List Chars :=
  [str "skills", str "experience", str "education", str "certifications"]

/-- `/(?:CERTIFICATIONS|CERTIFICATES|LICENSES)/i` openers. -/
def certOpen : List Chars := [str "certifications", str "certificates", str "licenses"]

/-- `(?:EDUCATION|EXPERIENCE|SKILLS|LANGUAGES|$)` closers of the certifications section. -/
def certClose : List Chars := [str "education", str "experience", str "skills", str "languages"]

/-- The five section regexes of `extractInformation`, as (openers, closers)
pairs; each section has its own fixed closer vocabulary. -/
def sectionPairs : List (List Chars × List Chars) :=
  [(eduOpen, eduClose), (expOpen, expClose), (skillsOpen, skillsClose),
   (langOpen, langClose), (certOpen, certClose)]

/-! ## Backtracking helpers for the hand-translated regexes -/

/-- `[n, n-1, ..., 1]`: the candidate lengths a greedy `{1,n}` quantifier tries. -/
def downFrom (n : Nat) : List Nat := (List.range n).map (fun i => n - i)

/-- `[n, n-1, ..., 0]`: the candidate lengths a greedy `{0,n}` quantifier tries. -/
def downFrom0 (n : Nat) : List Nat := (List.range (n + 1)).map (fun i => n - i)

/-- Exactly `n` characters satisfying `p` (`p{n}` quantifier). -/
def takeN (p : Char → Bool) : Nat → Chars → Option (Chars × Chars)
  | 0, s => some ([], s)
  | _ + 1, [] => none
  | n + 1, c :: tl =>
    if p c then (takeN p n tl).map (fun pr => (c :: pr.1, pr.2)) else none

def isWordOpt : Option Char → Bool
  | none => false
  | some c => isWordChar c

/-- JS `\b`: a word/non-word transition between two adjacent positions. -/
def wordB (a b : Option Char) : Bool := isWordOpt a != isWordOpt b

/-- `\b` directly after a word character: the next character must not be a
word character (or the text ends). -/
def endB : Chars → Bool
  | [] => true
  | c :: _ => !isWordChar c

/-- One optional character from class `p` (`X?`), present-first as the greedy
`?` quantifier backtracks. -/
def optCh (p : Char → Bool) (s : Chars) : List (Chars × Chars) :=
  match s with
  | c :: r => if p c then [([c], r), ([], s)] else [([], s)]
  | [] => [([], s)]

/-! ## extractPersonalInfo (resumeParser.js lines 83-118) -/

/-- `/^([A-Z][a-z]+ [A-Z][a-z]+)/m` at one line-start position.  The greedy
`[a-z]+` runs cannot backtrack usefully (every shorter run ends on a lowercase
letter where a space or the end of the pattern is required), so each run is
maximal. -/
def nameAt : Chars → Option Chars
  | c0 :: r0 =>
    if isUpperCh c0 then
      let run1 := r0.takeWhile isLowerCh
      if run1.isEmpty then none
      else
        match r0.drop run1.length with
        | ' ' :: c2 :: r3 =>
          if isUpperCh c2 then
            let run2 := r3.takeWhile isLowerCh
            if run2.isEmpty then none
            else some (c0 :: run1 ++ ' ' :: c2 :: run2)
          else none
        | _ => none
    else none
  | [] => none

/-- Leftmost multiline `^`-anchored match: try `nameAt` at offset 0 and after
every line terminator. -/
def nameScan (atLineStart : Bool) : Chars → Option Chars
  | [] => none
  | c :: tl =>
    match (if atLineStart then nameAt (c :: tl) else none) with
    | some m => some m
    | none => nameScan (c == '\n' || c == '\r') tl

def nameFind (t : Chars) : Option Chars := nameScan true t

/-- `[A-Za-z0-9._%+-]` -/
def isEmailLocal (c : Char) : Bool :=
  isAlphaCh c || isDigitCh c || c == '.' || c == '_' || c == '%' || c == '+' || c == '-'

/-- `[A-Za-z0-9.-]` -/
def isEmailDom (c : Char) : Bool := isAlphaCh c || isDigitCh c || c == '.' || c == '-'

/-- `[A-Z|a-z]` (the source class literally contains the pipe). -/
def isTld (c : Char) : Bool := isAlphaCh c || c == '|'

/-- `/\b[A-Za-z0-9._%+-]+@[A-Za-z0-9.-]+\.[A-Z|a-z]{2,}\b/` at one position
(`pc` is the preceding character).  The domain run and TLD run are greedy and
backtrack (the classes contain `.` resp. word characters). -/
def emailAt (pc : Option Char) (s : Chars) : Option Chars :=
  if wordB pc s.head? then
    let run1 := s.takeWhile isEmailLocal
    if run1.isEmpty then none
    else
      match s.drop run1.length with
      | '@' :: r2 =>
        let domRun := r2.takeWhile isEmailDom
        firstSome (fun k =>
          match r2.drop k with
          | '.' :: r3 =>
            let tldRun := r3.takeWhile isTld
            firstSome (fun t =>
              match (r3.take t).getLast? with
              | some lastC =>
                if 2 ≤ t && wordB (some lastC) (r3.drop t).head? then
                  some (run1 ++ '@' :: r2.take k ++ '.' :: r3.take t)
                else none
              | none => none) (downFrom tldRun.length)
          | _ => none) (downFrom domRun.length)
      | _ => none
  else none

def emailScan (pc : Option Char) : Chars → Option Chars
  | [] => none
  | c :: tl =>
    match emailAt pc (c :: tl) with
    | some m => some m
    | none => emailScan (some c) tl

def emailFind (t : Chars) : Option Chars := emailScan none t

/-- `[-.\s]` -/
def isPhoneSep (c : Char) : Bool := c == '-' || c == '.' || isWS c

/-- `[-\s]` -/
def isDashWS (c : Char) : Bool := c == '-' || isWS c

/-- `\(?\d{3}\)?[-.\s]?\d{3}[-.\s]?\d{4}\b` with the greedy optionals tried
present-first. -/
def phoneFrom3 (s : Chars) : Option Chars :=
  firstSome (fun o1 =>
    match takeN isDigitCh 3 o1.2 with
    | none => none
    | some (d1, s2) =>
      firstSome (fun o2 =>
        firstSome (fun o3 =>
          match takeN isDigitCh 3 o3.2 with
          | none => none
          | some (d2, s5) =>
            firstSome (fun o4 =>
              match takeN isDigitCh 4 o4.2 with
              | none => none
              | some (d3, s7) =>
                if endB s7 then
                  some (o1.1 ++ d1 ++ o2.1 ++ o3.1 ++ d2 ++ o4.1 ++ d3)
                else none) (optCh isPhoneSep s5)) (optCh isPhoneSep o2.2))
        (optCh (· == ')') s2)) (optCh (· == '(') s)

/-- The optional leading `(\+\d{1,3}[-\s]?)?` group, present branch. -/
def phonePlus (s : Chars) : Option Chars :=
  match s with
  | '+' :: r =>
    firstSome (fun n =>
      match takeN isDigitCh n r with
      | none => none
      | some (ds, r2) =>
        firstSome (fun sep => (phoneFrom3 sep.2).map (fun m => '+' :: ds ++ sep.1 ++ m))
          (optCh isDashWS r2)) [3, 2, 1]
  | _ => none

/-- `/\b(\+\d{1,3}[-\s]?)?\(?\d{3}\)?[-.\s]?\d{3}[-.\s]?\d{4}\b/` at one
position. -/
def phoneAt (pc : Option Char) (s : Chars) : Option Chars :=
  if wordB pc s.head? then
    match phonePlus s with
    | some m => some m
    | none => phoneFrom3 s
  else none

def phoneScan (pc : Option Char) : Chars → Option Chars
  | [] => none
  | c :: tl =>
    match phoneAt pc (c :: tl) with
    | some m => some m
    | none => phoneScan (some c) tl

def phoneFind (t : Chars) : Option Chars := phoneScan none t

/-- First alternative of the location regex:
`(?:Address|Location):\s*([^,\n]+,\s*[A-Za-z\s]+(?:,\s*[A-Z]{2})?)` (with the
`i` flag, so `[A-Z]{2}` accepts any two letters).  Returns capture group 1. -/
def locAlt1 (s : Chars) : Option Chars :=
  match hitAt [str "address", str "location"] s with
  | none => none
  | some (_, r0) =>
    match r0 with
    | ':' :: r1 =>
      let ws1 := r1.takeWhile isWS
      firstSome (fun m =>
        let r2 := r1.drop m
        let body := r2.takeWhile (fun c => !(c == ',' || c == '\n'))
        if body.isEmpty then none
        else
          match r2.drop body.length with
          | ',' :: r4 =>
            let ws2 := r4.takeWhile isWS
            firstSome (fun m2 =>
              let r5 := r4.drop m2
              let run := r5.takeWhile isAlphaWS
              if run.isEmpty then none
              else
                let tail2 : Chars :=
                  match r5.drop run.length with
                  | ',' :: r7 =>
                    let ws3 := r7.takeWhile isWS
                    match firstSome (fun m3 =>
                        match r7.drop m3 with
                        | a :: b :: _ =>
                          if isAlphaCh a && isAlphaCh b then some (',' :: r7.take m3 ++ [a, b])
                          else none
                        | _ => none) (downFrom0 ws3.length) with
                    | some opt => opt
                    | none => []
                  | _ => []
                some (body ++ ',' :: r4.take m2 ++ run ++ tail2)) (downFrom0 ws2.length)
          | _ => none) (downFrom0 ws1.length)
    | _ => none

/-- Second alternative `\b([A-Za-z\s]+, [A-Z]{2})\b` (with the `i` flag);
returns capture group 2. -/
def locAlt2 (pc : Option Char) (s : Chars) : Option Chars :=
  if wordB pc s.head? then
    let run := s.takeWhile isAlphaWS
    if run.isEmpty then none
    else
      match s.drop run.length with
      | ',' :: ' ' :: a :: b :: rest =>
        if isAlphaCh a && isAlphaCh b && endB rest then
          some (run ++ ',' :: ' ' :: [a, b])
        else none
      | _ => none
  else none

/-- Leftmost match of the location regex; the code stores
`locationMatch[1] || locationMatch[2]`, i.e. the group of whichever
alternative matched (group 1 is never empty when alternative 1 matches). -/
def locScan (pc : Option Char) : Chars → Option Chars
  | [] => none
  | c :: tl =>
    match locAlt1 (c :: tl) with
    | some g => some g
    | none =>
      match locAlt2 pc (c :: tl) with
      | some g => some g
      | none => locScan (some c) tl

def locFind (t : Chars) : Option Chars := locScan none t

/-- The date-of-birth regex `(?:Date of Birth|DOB|Born)` then `:p*` then group 1
`\d{1,2} sep \d{1,2} sep \d{2,4}` where `sep` is a dash or a slash and `p*` is
`\s*` (the `i` flag applies), tried at one position; returns capture group 1. -/
def dobAt (s : Chars) : Option Chars :=
  match hitAt [str "date of birth", str "dob", str "born"] s with
  | none => none
  | some (_, r0) =>
    match r0 with
    | ':' :: r1 =>
      let ws := r1.takeWhile isWS
      let r2 := r1.drop ws.length
      firstSome (fun n1 =>
        match takeN isDigitCh n1 r2 with
        | none => none
        | some (d1, r3) =>
          match r3 with
          | c1 :: r4 =>
            if c1 == '-' || c1 == '/' then
              firstSome (fun n2 =>
                match takeN isDigitCh n2 r4 with
                | none => none
                | some (d2, r5) =>
                  match r5 with
                  | c2 :: r6 =>
                    if c2 == '-' || c2 == '/' then
                      firstSome (fun n3 =>
                        (takeN isDigitCh n3 r6).map
                          (fun pr => d1 ++ c1 :: d2 ++ c2 :: pr.1)) [4, 3, 2]
                    else none
                  | [] => none) [2, 1]
            else none
          | [] => none) [2, 1]
    | _ => none

def dobScan : Chars → Option Chars
  | [] => none
  | c :: tl =>
    match dobAt (c :: tl) with
    | some m => some m
    | none => dobScan tl

def dobFind (t : Chars) : Option Chars := dobScan t

structure PersonalInfo where
  fullName : Option String
  email : Option String
  phone : Option String
  location : Option String
  dateOfBirth : Option String
deriving Repr, DecidableEq

/-- `if (match) { field = value; }`: assign on a match, keep the old value
otherwise. -/
def updField (newVal : Option Chars) (old : Option String) : Option String :=
  match newVal with
  | some v => some (strOf v)
  | none => old

/-- `extractPersonalInfo` (resumeParser.js lines 83-118). -/
def extractPersonalInfoFields (p : PersonalInfo) (t : Chars) : PersonalInfo :=
  { fullName := updField (nameFind t) p.fullName
    email := updField (emailFind t) p.email
    phone := updField (phoneFind t) p.phone
    location := updField (locFind t) p.location
    dateOfBirth := updField (dobFind t) p.dateOfBirth }

/-! ## Entry records of the canonical profile -/

structure EducationEntry where
  institution : String
  degree : Option String
  dates : Option String
  gpa : Option String
deriving Repr, DecidableEq

structure ExperienceEntry where
  company : String
  title : Option String
  dates : Option String
  description : String
deriving Repr, DecidableEq

structure LanguageEntry where
  language : String
  proficiency : String
deriving Repr, DecidableEq

structure CertificationEntry where
  name : String
  date : Option String
  issuer : Option String
deriving Repr, DecidableEq

structure UserData where
  personalInfo : PersonalInfo
  education : List EducationEntry
  experience : List ExperienceEntry
  skills : List String
  languages : List LanguageEntry
  certifications : List CertificationEntry
deriving Repr, DecidableEq

/-- The profile skeleton built by the `ResumeParser` constructor. -/
def emptyUserData : UserData :=
  { personalInfo := ⟨none, none, none, none, none⟩
    education := []
    experience := []
    skills := []
    languages := []
    certifications := [] }

/-- Leftmost position at which the at-a-position matcher `f` succeeds
(`regex.exec` searching from the current `lastIndex`). -/
def scanPos (f : Chars → Option β) : Chars → Option (Nat × β)
  | [] => (f []).map (fun b => (0, b))
  | c :: tl =>
    match f (c :: tl) with
    | some b => some (0, b)
    | none => (scanPos f tl).map (fun p => (p.1 + 1, p.2))

/-- `text.substring(Math.max(0, idx - before), Math.min(text.length, idx + after))`:
the context window around a primary match. -/
def window (sec : Chars) (idx before after : Nat) : Chars :=
  let start := idx - before
  (sec.drop start).take (min sec.length (idx + after) - start)

/-! ## extractEducation (resumeParser.js lines 120-157) -/

/-- Earliest `\d{4}` occurrence: the lazy `(?:[\s\S]*?)(?:\d{4})` tail of the
university regex.  Returns (skipped chars, the four digits, rest). -/
def findQuad : Chars → Option (Chars × Chars × Chars)
  | [] => none
  | c :: tl =>
    match takeN isDigitCh 4 (c :: tl) with
    | some (q, r) => some ([], q, r)
    | none => (findQuad tl).map (fun p => (c :: p.1, p.2.1, p.2.2))

/-- First alternative `[A-Za-z\s]+University` of the university regex group,
with greedy backtracking on the class run, then the lazy tail up to `\d{4}`.
Returns (`match[0]`, rest). -/
def uniAltA (s : Chars) : Option (Chars × Chars) :=
  firstSome (fun k =>
    match ciSplit (str "university") (s.drop k) with
    | some (hit, r1) =>
      match findQuad r1 with
      | some (mid, quad, rest) => some (s.take k ++ hit ++ mid ++ quad, rest)
      | none => none
    | none => none) (downFrom (s.takeWhile isAlphaWS).length)

/-- `/([A-Za-z\s]+University|College|Institute|School)(?:[\s\S]*?)(?:\d{4})/gi`
at one position (alternatives in source order). -/
def uniAt (s : Chars) : Option (Chars × Chars) :=
  match uniAltA s with
  | some x => some x
  | none =>
    firstSome (fun tok =>
      match ciSplit tok s with
      | some (hit, r1) =>
        match findQuad r1 with
        | some (mid, quad, rest) => some (hit ++ mid ++ quad, rest)
        | none => none
      | none => none) [str "college", str "institute", str "school"]

/-- Degree keywords in source order
(`Bachelor|Master|Ph\.D|MBA|B\.S\.|M\.S\.|B\.A\.|M\.A\.|B\.Eng|M\.Eng|B\.Tech|M\.Tech`). -/
def degreeToks : List Chars :=
  [str "bachelor", str "master", str "ph.d", str "mba", str "b.s.", str "m.s.",
   str "b.a.", str "m.a.", str "b.eng", str "m.eng", str "b.tech", str "m.tech"]

/-- The degree regex: leftmost keyword, then greedy `[^\n\r]*` to the end of
the line. -/
def degreeFind (ctx : Chars) : Option Chars :=
  match splitTok degreeToks ctx with
  | some (_, hit, r) => some (hit ++ r.takeWhile (fun c => !(c == '\n' || c == '\r')))
  | none => none

/-- `(?:\d{4}\s*-\s*\d{4}|\d{4}\s*-\s*Present|\d{4})` at one position
(alternatives in source order; each greedy `\s*` run is forcedly maximal since
a shorter run would end on a whitespace character where a dash or digit is
required). -/
def dateTryAt (s : Chars) : Option Chars :=
  match takeN isDigitCh 4 s with
  | none => none
  | some (q1, r1) =>
    let ws1 := r1.takeWhile isWS
    match r1.drop ws1.length with
    | '-' :: r2 =>
      let ws2 := r2.takeWhile isWS
      let r3 := r2.drop ws2.length
      match takeN isDigitCh 4 r3 with
      | some (q2, _) => some (q1 ++ ws1 ++ '-' :: ws2 ++ q2)
      | none =>
        match ciSplit (str "present") r3 with
        | some (hit, _) => some (q1 ++ ws1 ++ '-' :: ws2 ++ hit)
        | none => some q1
    | _ => some q1

def dateScan : Chars → Option Chars
  | [] => none
  | c :: tl =>
    match dateTryAt (c :: tl) with
    | some m => some m
    | none => dateScan tl

/-- `[0-9](?:\.[0-9]+)?` (GPA number). -/
def numTake : Chars → Option (Chars × Chars)
  | [] => none
  | d :: r =>
    if isDigitCh d then
      match r with
      | '.' :: r2 =>
        let ds := r2.takeWhile isDigitCh
        if ds.isEmpty then some ([d], r)
        else some (d :: '.' :: ds, r2.drop ds.length)
      | _ => some ([d], r)
    else none

/-- The GPA regex at one position: `GPA` then optional colon, `\s*`, group 1,
`\s*`, optional slash, `\s*`, optional group 2. -/
def gpaTryAt (s : Chars) : Option (Chars × Option Chars) :=
  match ciSplit (str "gpa") s with
  | none => none
  | some (_, r0) =>
    let r1 := match r0 with
      | ':' :: r => r
      | _ => r0
    let r2 := r1.drop (r1.takeWhile isWS).length
    match numTake r2 with
    | none => none
    | some (g1, r3) =>
      let r4 := r3.drop (r3.takeWhile isWS).length
      let r5 := match r4 with
        | '/' :: r => r
        | _ => r4
      let r6 := r5.drop (r5.takeWhile isWS).length
      match numTake r6 with
      | some (g2, _) => some (g1, some g2)
      | none => some (g1, none)

def gpaScan : Chars → Option (Chars × Option Chars)
  | [] => none
  | c :: tl =>
    match gpaTryAt (c :: tl) with
    | some m => some m
    | none => gpaScan tl

/-- `gpaMatch[1] + (gpaMatch[2] ? '/' + gpaMatch[2] : '')` -/
def gpaRender (g : Chars × Option Chars) : Chars :=
  g.1 ++ (match g.2 with
    | some g2 => '/' :: g2
    | none => [])

/-- One education entry from a university match at absolute index `idx` of the
section text. -/
def eduEntryAt (sec : Chars) (idx : Nat) (m0 : Chars) : EducationEntry :=
  let ctx := window sec idx 100 300
  { institution := strOf (trimChars m0)
    degree := (degreeFind ctx).map (fun d => strOf (trimChars d))
    dates := (dateScan ctx).map (fun d => strOf (trimChars d))
    gpa := (gpaScan ctx).map (fun g => strOf (gpaRender g)) }

/-- The `while ((uniMatch = universityRegex.exec(eduText)) !== null)` loop:
`lastIndex` advances to the end of each match. -/
def eduLoop (sec : Chars) : Nat → Nat → Chars → List EducationEntry
  | 0, _, _ => []
  | fuel + 1, pos, s =>
    match scanPos uniAt s with
    | none => []
    | some (i, m0, rest) =>
      eduEntryAt sec (pos + i) m0 :: eduLoop sec fuel (pos + i + m0.length) rest

def eduEntriesOfSection (sec : Chars) : List EducationEntry :=
  eduLoop sec (sec.length + 1) 0 sec

def eduEntries (t : Chars) : List EducationEntry :=
  match sectionCapture eduOpen eduClose t with
  | none => []
  | some sec => eduEntriesOfSection sec

/-- `extractEducation` (resumeParser.js lines 120-157). -/
def extractEducation (ud : UserData) (t : Chars) : UserData :=
  match sectionCapture eduOpen eduClose t with
  | none => ud
  | some sec => { ud with education := ud.education ++ eduEntriesOfSection sec }

/-! ## extractExperience (resumeParser.js lines 159-196) -/

/-- `[A-Za-z0-9\s,\.]` -/
def isCompCh (c : Char) : Bool :=
  isAlphaCh c || isDigitCh c || isWS c || c == ',' || c == '.'

/-- `\d{4}\s*-\s*(?:\d{4}|Present)` at one position. -/
def rangeAt (s : Chars) : Option (Chars × Chars) :=
  match takeN isDigitCh 4 s with
  | none => none
  | some (q1, r1) =>
    let ws1 := r1.takeWhile isWS
    match r1.drop ws1.length with
    | '-' :: r2 =>
      let ws2 := r2.takeWhile isWS
      let r3 := r2.drop ws2.length
      match takeN isDigitCh 4 r3 with
      | some (q2, rest) => some (q1 ++ ws1 ++ '-' :: ws2 ++ q2, rest)
      | none =>
        match ciSplit (str "present") r3 with
        | some (hit, rest) => some (q1 ++ ws1 ++ '-' :: ws2 ++ hit, rest)
        | none => none
    | _ => none

/-- Earliest date-range occurrence (the lazy tail of the company regex).
Returns (skipped chars, range, rest). -/
def scanRange : Chars → Option (Chars × Chars × Chars)
  | [] => none
  | c :: tl =>
    match rangeAt (c :: tl) with
    | some (rg, rest) => some ([], rg, rest)
    | none => (scanRange tl).map (fun p => (c :: p.1, p.2.1, p.2.2))

/-- `/([A-Za-z0-9\s,\.]+)(?:[\s\S]*?)(?:\d{4}\s*-\s*(?:\d{4}|Present))/gi` at
one position: greedy class run (longest first), then the lazy tail up to the
earliest date range.  Returns (`match[0]`, rest). -/
def compAt (s : Chars) : Option (Chars × Chars) :=
  firstSome (fun k =>
    match scanRange (s.drop k) with
    | some (mid, rg, rest) => some (s.take k ++ mid ++ rg, rest)
    | none => none) (downFrom (s.takeWhile isCompCh).length)

def isNL (c : Char) : Bool := c == '\n' || c == '\r'

/-- The `([A-Za-z\s]+)(?:[\n\r]|$)` part of the job-title regex: greedy run,
backtracking to the longest end followed by a line terminator or the end of
the text.  Returns (group 1, closer characters). -/
def titleGroupAt (s : Chars) : Option (Chars × Chars) :=
  let run := s.takeWhile isAlphaWS
  firstSome (fun k =>
    match s.drop k with
    | [] => some (s.take k, [])
    | c :: _ => if isNL c then some (s.take k, [c]) else none) (downFrom run.length)

/-- `/(?:[\n\r]|^)([A-Za-z\s]+)(?:[\n\r]|$)/i` (no `m` flag: `^` is only the
start of the string): leftmost match, opener alternatives in source order.
Returns (`match[0]`, group 1). -/
def titleScan (atStart : Bool) : Chars → Option (Chars × Chars)
  | [] => none
  | c :: tl =>
    match (if isNL c then (titleGroupAt tl).map (fun g => (c :: g.1 ++ g.2, g.1)) else none) with
    | some x => some x
    | none =>
      match (if atStart then (titleGroupAt (c :: tl)).map (fun g => (g.1 ++ g.2, g.1)) else none) with
      | some x => some x
      | none => titleScan false tl

/-- One experience entry from a company match at absolute index `idx` of the
section text. -/
def expEntryAt (sec : Chars) (idx : Nat) (m0 : Chars) : ExperienceEntry :=
  let ctx := window sec idx 50 400
  let titleM := titleScan true ctx
  let dateM := dateScan ctx
  let needle : Chars :=
    match dateM with
    | some d => d
    | none =>
      match titleM with
      | some tm => tm.1
      | none => []
  let descr : Chars :=
    match indexOfSub needle ctx with
    | some i => (trimChars (ctx.drop (i + 20))).take 300
    | none => []
  { company := strOf (trimChars m0)
    title := titleM.map (fun tm => strOf (trimChars tm.2))
    dates := dateM.map (fun d => strOf (trimChars d))
    description := strOf descr }

def expLoop (sec : Chars) : Nat → Nat → Chars → List ExperienceEntry
  | 0, _, _ => []
  | fuel + 1, pos, s =>
    match scanPos compAt s with
    | none => []
    | some (i, m0, rest) =>
      expEntryAt sec (pos + i) m0 :: expLoop sec fuel (pos + i + m0.length) rest

def expEntriesOfSection (sec : Chars) : List ExperienceEntry :=
  expLoop sec (sec.length + 1) 0 sec

def expEntries (t : Chars) : List ExperienceEntry :=
  match sectionCapture expOpen expClose t with
  | none => []
  | some sec => expEntriesOfSection sec

/-- `extractExperience` (resumeParser.js lines 159-196). -/
def extractExperience (ud : UserData) (t : Chars) : UserData :=
  match sectionCapture expOpen expClose t with
  | none => ud
  | some sec => { ud with experience := ud.experience ++ expEntriesOfSection sec }

/-! ## extractSkills (resumeParser.js lines 198-212) -/

/-- The separator class of `skillsText.split(/[,•·]/)`: comma, bullet (U+2022),
middle dot (U+00B7). -/
def isSkillSep (c : Char) : Bool :=
  c == ',' || c == Char.ofNat 0x2022 || c == Char.ofNat 0xB7

/-- `String.prototype.split` on a single-character class. -/
def splitSeps : Chars → List Chars
  | [] => [[]]
  | c :: tl =>
    if isSkillSep c then [] :: splitSeps tl
    else
      match splitSeps tl with
      | p :: ps => (c :: p) :: ps
      | [] => [[c]]

/-- Full case-insensitive equality with a lowercase literal
(`/^(?:..)$/i.test`). -/
def ciEqTok (tok : Chars) (s : Chars) : Bool :=
  match ciSplit tok s with
  | some (_, []) => true
  | _ => false

/-- `/^(?:LANGUAGES|EXPERIENCE|EDUCATION|CERTIFICATIONS)$/i.test(skill)` -/
def isHeadingWord (s : Chars) : Bool :=
  ciEqTok (str "languages") s || ciEqTok (str "experience") s ||
    ciEqTok (str "education") s || ciEqTok (str "certifications") s

/-- `[...new Set(list)]`: deduplication keeping first occurrences. -/
def dedupAcc (seen : List Chars) : List Chars → List Chars
  | [] => []
  | x :: xs =>
    if seen.contains x then dedupAcc seen xs
    else x :: dedupAcc (x :: seen) xs

/-- The skills list computed from a matched skills section: split on
separators, trim, drop empties and bare heading words, deduplicate. -/
def skillsListOf (sec : Chars) : List Chars :=
  dedupAcc []
    (((splitSeps sec).map trimChars).filter (fun sk => !sk.isEmpty && !isHeadingWord sk))

/-- `extractSkills` (resumeParser.js lines 198-212): note that on a section
match the skills array is *assigned*, not appended to. -/
def extractSkills (ud : UserData) (t : Chars) : UserData :=
  match sectionCapture skillsOpen skillsClose t with
  | none => ud
  | some sec => { ud with skills := (skillsListOf sec).map strOf }

/-- The skills value after `extractSkills`: assigned from the section when one
matches, the previous value otherwise. -/
def skillsResult (old : List String) (t : Chars) : List String :=
  match sectionCapture skillsOpen skillsClose t with
  | none => old
  | some sec => (skillsListOf sec).map strOf

/-! ## extractLanguages (resumeParser.js lines 214-263) -/

def commonLanguages : List Chars :=
  [str "English", str "Spanish", str "French", str "German", str "Italian",
   str "Chinese", str "Japanese", str "Russian", str "Arabic", str "Portuguese",
   str "Hindi", str "Bengali", str "Urdu", str "Dutch", str "Turkish"]

/-- Proficiency keywords in source order. -/
def profToks : List Chars :=
  [str "fluent", str "native", str "professional", str "beginner",
   str "intermediate", str "advanced", str "proficient", str "basic"]

/-- `` `${language}[\s\S]*?(?:fluent|..)` `` with the `i` flag: the match starts
at the leftmost occurrence of the language name and runs to the earliest
proficiency keyword after it (no such keyword after the first occurrence means
no keyword after any occurrence, so no match at all). -/
def langRegexFind (lang : Chars) (s : Chars) : Option Chars :=
  match splitTok [lowerStr lang] s with
  | none => none
  | some (_, hit, rest) =>
    match splitTok profToks rest with
    | some (mid, kw, _) => some (hit ++ mid ++ kw)
    | none => none

/-- `String.prototype.replace` with a string pattern: replace the first
(case-sensitive) occurrence. -/
def replaceFirst (pat : Chars) : Chars → Chars
  | [] => []
  | c :: tl =>
    if csStarts pat (c :: tl) then (c :: tl).drop pat.length
    else c :: replaceFirst pat tl

/-- One iteration of the per-language loop inside a matched languages
section. -/
def tier1Entry (sec : Chars) (lang : Chars) : Option LanguageEntry :=
  match langRegexFind lang sec with
  | some m0 =>
    some { language := strOf lang, proficiency := strOf (trimChars (replaceFirst lang m0)) }
  | none =>
    if containsSub lang sec then
      some { language := strOf lang, proficiency := "Not specified" }
    else none

/-- `` `${language}[\s\S]{0,30}(?:fluent|..)` `` with the `i` flag at one
position; the bounded any-character run is greedy. -/
def ctxAt (lang : Chars) (s : Chars) : Option Chars :=
  match ciSplit (lowerStr lang) s with
  | none => none
  | some (hit, rest) =>
    firstSome (fun n =>
      if n ≤ rest.length then
        match hitAt profToks (rest.drop n) with
        | some (kw, _) => some (hit ++ rest.take n ++ kw)
        | none => none
      else none) (downFrom0 30)

def ctxRegexFind (lang : Chars) : Chars → Option Chars
  | [] => none
  | c :: tl =>
    match ctxAt lang (c :: tl) with
    | some m => some m
    | none => ctxRegexFind lang tl

/-- One iteration of the per-language loop when no languages section exists
(whole-document scan; note the case-sensitive `includes` guard). -/
def tier2Entry (t : Chars) (lang : Chars) : Option LanguageEntry :=
  if containsSub lang t then
    match ctxRegexFind lang t with
    | some m0 =>
      some { language := strOf lang
             proficiency :=
               match splitTok profToks m0 with
               | some (_, kw, _) => strOf (trimChars kw)
               | none => "Not specified" }
    | none => none
  else none

def tier1Entries (sec : Chars) : List LanguageEntry :=
  commonLanguages.filterMap (tier1Entry sec)

def tier2Entries (t : Chars) : List LanguageEntry :=
  commonLanguages.filterMap (tier2Entry t)

def langEntries (t : Chars) : List LanguageEntry :=
  match sectionCapture langOpen langClose t with
  | some sec => tier1Entries sec
  | none => tier2Entries t

/-- `extractLanguages` (resumeParser.js lines 214-263). -/
def extractLanguages (ud : UserData) (t : Chars) : UserData :=
  match sectionCapture langOpen langClose t with
  | some sec => { ud with languages := ud.languages ++ tier1Entries sec }
  | none => { ud with languages := ud.languages ++ tier2Entries t }

/-! ## extractCertifications (resumeParser.js lines 265-297) -/

def certToks : List Chars := [str "certification", str "certificate", str "license"]

/-- `/([A-Za-z\s]+(?:Certification|Certificate|License))(?:[\s\S]*?)(?:dates)?/gi`
at one position.  The lazy tail plus a fully optional date group match the
empty string, so the match ends at group 1 (when a date abuts the keyword
with no separator the engine would swallow it into `match[0]`, but the entry
is built from group 1 and no later match can start inside the date digits,
so ending at group 1 is observably the same).  Returns
(class run, keyword hit, rest). -/
def certAt (s : Chars) : Option (Chars × Chars × Chars) :=
  firstSome (fun k =>
    match hitAt certToks (s.drop k) with
    | some (hit, rest) => some (s.take k, hit, rest)
    | none => none) (downFrom (s.takeWhile isAlphaWS).length)

/-- `(?:\d{4}|\d{2}\/\d{2}\/\d{4}|\d{2}-\d{2}-\d{4})` at one position
(alternatives in source order). -/
def certDateAt (s : Chars) : Option Chars :=
  match takeN isDigitCh 4 s with
  | some (q, _) => some q
  | none =>
    match takeN isDigitCh 2 s with
    | none => none
    | some (d1, r1) =>
      match r1 with
      | '/' :: r2 =>
        (match takeN isDigitCh 2 r2 with
         | some (d2, r3) =>
           match r3 with
           | '/' :: r4 =>
             (match takeN isDigitCh 4 r4 with
              | some (d3, _) => some (d1 ++ '/' :: d2 ++ '/' :: d3)
              | none => none)
           | _ => none
         | none => none)
      | '-' :: r2 =>
        (match takeN isDigitCh 2 r2 with
         | some (d2, r3) =>
           match r3 with
           | '-' :: r4 =>
             (match takeN isDigitCh 4 r4 with
              | some (d3, _) => some (d1 ++ '-' :: d2 ++ '-' :: d3)
              | none => none)
           | _ => none
         | none => none)
      | _ => none

def certDateScan : Chars → Option Chars
  | [] => none
  | c :: tl =>
    match certDateAt (c :: tl) with
    | some m => some m
    | none => certDateScan tl

def issuerToks : List Chars := [str "issued by", str "from", str "through"]

/-- `/(?:issued by|from|through)\s+([A-Za-z\s]+)/i` at one position; the
greedy `\s+` backtracks until the letters-and-whitespace group is
nonempty. -/
def issuerAt (s : Chars) : Option Chars :=
  match hitAt issuerToks s with
  | none => none
  | some (_, r0) =>
    let ws := r0.takeWhile isWS
    firstSome (fun m =>
      let r1 := r0.drop m
      let run := r1.takeWhile isAlphaWS
      if run.isEmpty then none else some run) (downFrom ws.length)

def issuerScan : Chars → Option Chars
  | [] => none
  | c :: tl =>
    match issuerAt (c :: tl) with
    | some m => some m
    | none => issuerScan tl

/-- One certification entry from a match at absolute index `idx`. -/
def certEntryAt (sec : Chars) (idx : Nat) (g1 : Chars) : CertificationEntry :=
  let ctx := window sec idx 50 200
  { name := strOf (trimChars g1)
    date := (certDateScan ctx).map (fun d => strOf (trimChars d))
    issuer := (issuerScan ctx).map (fun i => strOf (trimChars i)) }

def certLoop (sec : Chars) : Nat → Nat → Chars → List CertificationEntry
  | 0, _, _ => []
  | fuel + 1, pos, s =>
    match scanPos certAt s with
    | none => []
    | some (i, run, hit, rest) =>
      certEntryAt sec (pos + i) (run ++ hit) ::
        certLoop sec fuel (pos + i + (run ++ hit).length) rest

def certEntriesOfSection (sec : Chars) : List CertificationEntry :=
  certLoop sec (sec.length + 1) 0 sec

def certEntries (t : Chars) : List CertificationEntry :=
  match sectionCapture certOpen certClose t with
  | none => []
  | some sec => certEntriesOfSection sec

/-- `extractCertifications` (resumeParser.js lines 265-297). -/
def extractCertifications (ud : UserData) (t : Chars) : UserData :=
  match sectionCapture certOpen certClose t with
  | none => ud
  | some sec => { ud with certifications := ud.certifications ++ certEntriesOfSection sec }

/-- `extractPersonalInfo` acting on the whole profile. -/
def extractPersonalInfo (ud : UserData) (t : Chars) : UserData :=
  { ud with personalInfo := extractPersonalInfoFields ud.personalInfo t }

/-- `extractInformation` (resumeParser.js lines 63-81): the six extractors in
source order, threading the mutable `this.userData`. -/
def extractInformation (ud : UserData) (t : Chars) : UserData :=
  extractCertifications
    (extractLanguages
      (extractSkills
        (extractExperience
          (extractEducation
            (extractPersonalInfo ud t) t) t) t) t) t

/-! ## identifyMissingFields (resumeParser.js lines 299-354) -/

def hexDig (n : Nat) : Char := if n < 10 then Char.ofNat (48 + n) else Char.ofNat (87 + n)

/-- `JSON.stringify` escaping of one character. -/
def jsonEscChar (c : Char) : Chars :=
  if c == '"' then ['\\', '"']
  else if c == '\\' then ['\\', '\\']
  else if c == '\n' then ['\\', 'n']
  else if c == '\r' then ['\\', 'r']
  else if c == '\t' then ['\\', 't']
  else if c == Char.ofNat 8 then ['\\', 'b']
  else if c == Char.ofNat 12 then ['\\', 'f']
  else if c.toNat < 32 then ['\\', 'u', '0', '0', hexDig (c.toNat / 16), hexDig (c.toNat % 16)]
  else [c]

def jsonStr (s : String) : Chars :=
  '"' :: (s.data.map jsonEscChar).flatten ++ ['"']

def jsonOptStr : Option String → Chars
  | none => str "null"
  | some s => jsonStr s

def joinComma : List Chars → Chars
  | [] => []
  | [x] => x
  | x :: xs => x ++ ',' :: joinComma xs

def jsonArr (elems : List Chars) : Chars := '[' :: joinComma elems ++ [']']

def openBr : Char := Char.ofNat 123

def closeBr : Char := Char.ofNat 125

def jsonObj (fields : List (String × Chars)) : Chars :=
  openBr :: joinComma (fields.map (fun f => jsonStr f.1 ++ ':' :: f.2)) ++ [closeBr]

def eduJson (e : EducationEntry) : Chars :=
  jsonObj [("institution", jsonStr e.institution), ("degree", jsonOptStr e.degree),
    ("dates", jsonOptStr e.dates), ("gpa", jsonOptStr e.gpa)]

def expJson (e : ExperienceEntry) : Chars :=
  jsonObj [("company", jsonStr e.company), ("title", jsonOptStr e.title),
    ("dates", jsonOptStr e.dates), ("description", jsonStr e.description)]

def langJson (e : LanguageEntry) : Chars :=
  jsonObj [("language", jsonStr e.language), ("proficiency", jsonStr e.proficiency)]

def certJson (e : CertificationEntry) : Chars :=
  jsonObj [("name", jsonStr e.name), ("date", jsonOptStr e.date),
    ("issuer", jsonOptStr e.issuer)]

/-- `JSON.stringify(this.userData)` with the constructor's key insertion
order. -/
def serializeUserData (ud : UserData) : Chars :=
  jsonObj
    [("personalInfo", jsonObj
        [("fullName", jsonOptStr ud.personalInfo.fullName),
         ("email", jsonOptStr ud.personalInfo.email),
         ("phone", jsonOptStr ud.personalInfo.phone),
         ("location", jsonOptStr ud.personalInfo.location),
         ("dateOfBirth", jsonOptStr ud.personalInfo.dateOfBirth)]),
     ("education", jsonArr (ud.education.map eduJson)),
     ("experience", jsonArr (ud.experience.map expJson)),
     ("skills", jsonArr (ud.skills.map jsonStr)),
     ("languages", jsonArr (ud.languages.map langJson)),
     ("certifications", jsonArr (ud.certifications.map certJson))]

/-- `/(?:citizen|permanent resident|work authorization|visa)/i` keywords. -/
def authKws : List Chars :=
  [str "citizen", str "permanent resident", str "work authorization", str "visa"]

/-- `/(?:linkedin|github|twitter|facebook|instagram)/i` keywords. -/
def socialKws : List Chars :=
  [str "linkedin", str "github", str "twitter", str "facebook", str "instagram"]

/-- JS truthiness of a nullable string (`!value`): `null` and the empty string
are falsy. -/
def jsTruthy : Option String → Bool
  | none => false
  | some s => !(s == "")

/-- `identifyMissingFields` (resumeParser.js lines 299-354), as one analysis
pass over the profile (the method pushes onto `this.missingFields`, which the
constructor initialises to `[]`; `parseResume` runs exactly one pass). -/
def identifyMissingFields (ud : UserData) : List String :=
  let resumeText := lowerStr (serializeUserData ud)
  (if jsTruthy ud.personalInfo.fullName then [] else ["fullName"]) ++
  (if jsTruthy ud.personalInfo.email then [] else ["email"]) ++
  (if jsTruthy ud.personalInfo.phone then [] else ["phone"]) ++
  (if jsTruthy ud.personalInfo.location then [] else ["location"]) ++
  (if jsTruthy ud.personalInfo.dateOfBirth then [] else ["dateOfBirth"]) ++
  (if ud.education.isEmpty then ["education"]
   else if (ud.education.filter (fun e => !jsTruthy e.degree || !jsTruthy e.dates)).isEmpty then []
   else ["completeEducationDetails"]) ++
  (if ud.experience.isEmpty then ["workExperience"]
   else if (ud.experience.filter (fun e => !jsTruthy e.title || !jsTruthy e.dates)).isEmpty then []
   else ["completeWorkExperienceDetails"]) ++
  (if ud.skills.isEmpty then ["skills"] else []) ++
  (if ud.languages.isEmpty then ["languages"] else []) ++
  ["references"] ++
  (if hasTok authKws resumeText then [] else ["workAuthorizationStatus"]) ++
  (if hasTok socialKws resumeText then [] else ["socialMediaProfiles"])

/-! ## parseResume (resumeParser.js lines 29-61) -/

inductive ResumeFormat
  | pdf
  | docx
  | txt
deriving Repr, DecidableEq

/-- Node's `path.extname`: the suffix of the basename from its last dot,
provided that dot is not the basename's first character. -/
def extname (p : String) : String :=
  let bn := (p.data.reverse.takeWhile (fun c => !(c == '/'))).reverse
  let revBn := bn.reverse
  let pre := revBn.takeWhile (fun c => !(c == '.'))
  if pre.length < revBn.length && pre.length + 1 < bn.length then
    strOf ('.' :: pre.reverse)
  else ""

structure ParseResult where
  userData : UserData
  missingFields : List String
deriving Repr, DecidableEq

/-- The parse pipeline applied to the decoded text: `extractInformation` then
`identifyMissingFields`, returning `{ userData, missingFields }`. -/
def runParser (text : Chars) : ParseResult :=
  let ud := extractInformation emptyUserData text
  { userData := ud, missingFields := identifyMissingFields ud }

/-- The extension dispatch of `parseResume`: `.pdf` / `.docx` / `.txt` select
a decoder, anything else throws `new Error('Unsupported file format')`. -/
def chooseFormat (filePath : String) : Except String ResumeFormat :=
  let fileExt := strOf (lowerStr (str (extname filePath)))
  if fileExt = ".pdf" then .ok .pdf
  else if fileExt = ".docx" then .ok .docx
  else if fileExt = ".txt" then .ok .txt
  else .error "Unsupported file format"

/-- `parseResume` (resumeParser.js lines 29-61).  The document decoders
(pdf-parse, mammoth, fs.readFileSync) are external collaborators, supplied as
the `decode` oracle; an unsupported extension throws before any decoding and
yields no profile data. -/
def parseResume (decode : ResumeFormat → Chars) (filePath : String) :
    Except String ParseResult :=
  match chooseFormat filePath with
  | .ok fmt => .ok (runParser (decode fmt))
  | .error e => .error e

/-! ## createFormMappings / autoFillApplication (index.js content script) -/

inductive FieldType
  | firstName
  | lastName
  | fullName
  | email
  | phone
  | address
  | city
  | state
  | zip
  | education
  | experience
  | skills
deriving Repr, DecidableEq

structure SelOption where
  value : String
  text : String
deriving Repr, DecidableEq

/-- Immutable snapshot of a form control: `name`, `id`, `placeholder`,
`type`, `tagName`, the associated label text (already lowercased by
`findLabelForInput`), the `options` of a select, and the current `value`. -/
structure InputEl where
  name : String
  id : String
  placeholder : String
  ty : String
  tagName : String
  label : Option String
  options : List SelOption
  value : Option String
deriving Repr, DecidableEq

/-- Keyword containment over the four lowercased text sources
(`name.includes(kw) || id.includes(kw) || placeholder.includes(kw) ||
(label && label.includes(kw))`). -/
def kwHit (i : InputEl) (kw : String) : Bool :=
  containsSub (str kw) (lowerStr (str i.name)) ||
  containsSub (str kw) (lowerStr (str i.id)) ||
  containsSub (str kw) (lowerStr (str i.placeholder)) ||
  (match i.label with
   | some l => containsSub (str kw) (str l)
   | none => false)

/-- The classification chain of `createFormMappings` (index.js lines
1347-1412), first match wins; no branch leaves `dataset.fieldType` unset. -/
def classifyInput (i : InputEl) : Option FieldType :=
  if kwHit i "name" then
    if kwHit i "first" then some .firstName
    else if kwHit i "last" then some .lastName
    else some .fullName
  else if kwHit i "email" || i.ty == "email" then some .email
  else if kwHit i "phone" || i.ty == "tel" then some .phone
  else if kwHit i "address" then some .address
  else if kwHit i "city" then some .city
  else if kwHit i "state" then some .state
  else if kwHit i "zip" || kwHit i "postal" then some .zip
  else if kwHit i "education" then some .education
  else if kwHit i "experience" then some .experience
  else if kwHit i "skill" then some .skills
  else none

/-- Template-literal interpolation of a nullable value (`null` prints as
"null"). -/
def jsNullStr : Option String → String
  | none => "null"
  | some s => s

def joinWith (sep : String) : List String → String
  | [] => ""
  | [x] => x
  | x :: xs => x ++ sep ++ joinWith sep xs

/-- The `switch (fieldType)` of `autoFillApplication` (index.js lines
1465-1524): the value computed for a classified field, `none` when the switch
leaves `value` null.  `city`, `state` and `zip` have no case. -/
def computeValue (ud : UserData) (ft : FieldType) (tag : String) : Option String :=
  match ft with
  | .firstName =>
    match ud.personalInfo.fullName with
    | some s => if s == "" then none else (s.splitOn " ").head?
    | none => none
  | .lastName =>
    match ud.personalInfo.fullName with
    | some s => if s == "" then none else (s.splitOn " ").getLast?
    | none => none
  | .fullName => ud.personalInfo.fullName
  | .email => ud.personalInfo.email
  | .phone => ud.personalInfo.phone
  | .address =>
    match ud.personalInfo.location with
    | some l => if l == "" then none else some l
    | none => none
  | .education =>
    match ud.education with
    | [] => none
    | e :: _ =>
      if tag == "TEXTAREA" then
        some (joinWith "\n" (ud.education.map (fun ed =>
          ed.institution ++ ", " ++ jsNullStr ed.degree ++ ", " ++ jsNullStr ed.dates)))
      else some (e.institution ++ " - " ++ jsNullStr e.degree)
  | .experience =>
    match ud.experience with
    | [] => none
    | e :: _ =>
      if tag == "TEXTAREA" then
        some (joinWith "\n\n" (ud.experience.map (fun ex =>
          ex.company ++ ", " ++ jsNullStr ex.title ++ ", " ++ jsNullStr ex.dates ++
            "\n" ++ ex.description)))
      else some (e.company ++ " - " ++ jsNullStr e.title)
  | .skills =>
    match ud.skills with
    | [] => none
    | _ => some (joinWith ", " ud.skills)
  | .city => none
  | .state => none
  | .zip => none

structure AutoFillResult where
  success : Bool
  filledFields : Nat
deriving Repr, DecidableEq

/-- `opt.text.toLowerCase().includes(value.toLowerCase())` -/
def optionMatches (v : String) (o : SelOption) : Bool :=
  containsSub (lowerStr (str v)) (lowerStr (str o.text))

/-- One iteration of the fill loop of `autoFillApplication` (index.js lines
1457-1549) on a control whose `dataset.fieldType` was set by
`createFormMappings`: returns the (possibly) updated control and its
contribution to `filledFields`. -/
def fillOne (ud : UserData) (i : InputEl) : InputEl × Nat :=
  match classifyInput i with
  | none => (i, 0)
  | some ft =>
    match computeValue ud ft i.tagName with
    | none => (i, 0)
    | some v =>
      if v == "" then (i, 0)
      else if i.tagName == "SELECT" then
        match i.options.find? (optionMatches v) with
        | some opt => ({ i with value := some opt.value }, 1)
        | none => (i, 0)
      else ({ i with value := some v }, 1)

/-- `autoFillApplication` (index.js lines 1451-1578): fills the analyzed
controls and returns the updated controls together with the returned object
`{ success: true, filledFields }`. -/
def autoFillApplication (ud : UserData) (inputs : List InputEl) :
    List InputEl × AutoFillResult :=
  let results := inputs.map (fillOne ud)
  (results.map (fun r => r.1),
   { success := true, filledFields := (results.map (fun r => r.2)).sum })

/-! ## handleAuthentication / handleGenericLogin (jobApplicationBot.js) -/

structure PageEl where
  visible : Bool
  key : Nat
deriving Repr, DecidableEq

structure Credential where
  username : String
  password : String
deriving Repr, DecidableEq

structure SessionRec where
  username : String
  cookie : Option String
deriving Repr, DecidableEq

/-- Result of one authentication attempt: the boolean the handler returns and
the list of (element key, value) fills it performed on the page. -/
structure AuthOutcome where
  success : Bool
  fills : List (Nat × String)
deriving Repr, DecidableEq

/-- The browser world an authentication attempt observes: `q` is
`this.page.$(selector)` on the current page; `afterSubmitLoginFormPresent`
is what `checkLoginRequirement()` reports after the generic form is
submitted; `cookies` is `context.cookies()` then.  The three known-site
flows drive navigation and fixed selectors on external pages, so their
outcomes are world inputs. -/
structure BotWorld where
  q : String → Option PageEl
  afterSubmitLoginFormPresent : Bool
  cookies : List String
  linkedinOutcome : AuthOutcome
  indeedOutcome : AuthOutcome
  glassdoorOutcome : AuthOutcome

def loginIndicatorSelectors : List String :=
  ["button:has-text(\"Sign In\")", "a:has-text(\"Sign In\")",
   "button:has-text(\"Log In\")", "a:has-text(\"Log In\")"]

def loggedInIndicatorSelectors : List String :=
  ["[aria-label=\"Profile\"]", "[aria-label=\"Account\"]", ".user-profile",
   ".user-avatar", ".profile-menu"]

def usernameSelectors : List String :=
  ["input[type=\"email\"]", "input[name=\"email\"]", "input[id=\"email\"]",
   "input[name=\"username\"]", "input[id=\"username\"]", "input[name=\"user\"]",
   "input[id=\"user\"]"]

def passwordSelectors : List String :=
  ["input[type=\"password\"]", "input[name=\"password\"]", "input[id=\"password\"]",
   "input[name=\"pwd\"]", "input[id=\"pwd\"]"]

def submitSelectors : List String :=
  ["button[type=\"submit\"]", "input[type=\"submit\"]", "button:has-text(\"Sign In\")",
   "button:has-text(\"Log In\")", "button:has-text(\"Login\")", "a:has-text(\"Sign In\")",
   "a:has-text(\"Log In\")"]

def anyVisible (w : BotWorld) (sels : List String) : Bool :=
  sels.any (fun sel =>
    match w.q sel with
    | some el => el.visible
    | none => false)

/-- `checkIfStillLoggedIn` (jobApplicationBot.js lines 237-272): any visible
login indicator means not logged in; otherwise any visible logged-in
indicator means logged in; otherwise the conservative default is not logged
in. -/
def checkIfStillLoggedIn (w : BotWorld) : Bool :=
  if anyVisible w loginIndicatorSelectors then false
  else if anyVisible w loggedInIndicatorSelectors then true
  else false

/-- The selector-priority loops of `handleGenericLogin`: first selector that
resolves to a visible element. -/
def findVisibleEl (w : BotWorld) (sels : List String) : Option PageEl :=
  firstSome (fun sel =>
    match w.q sel with
    | some el => if el.visible then some el else none
    | none => none) sels

def lookupStr (m : List (String × α)) (k : String) : Option α :=
  (m.find? (fun p => p.1 == k)).map (fun p => p.2)

/-- `handleGenericLogin` (jobApplicationBot.js lines 404-512).  All three of
username, password and submit must resolve to a visible element, and a
pre-registered generic credential for the domain must exist, before anything
is filled; on success the first context cookie is saved as the session
marker (session persistence itself is external I/O). -/
def handleGenericLogin (w : BotWorld) (genericCredentials : List (String × Credential))
    (domain : String) : AuthOutcome :=
  let usernameField := findVisibleEl w usernameSelectors
  let passwordField := findVisibleEl w passwordSelectors
  let submitButton := findVisibleEl w submitSelectors
  match usernameField, passwordField, submitButton with
  | some u, some p, some _ =>
    match lookupStr genericCredentials domain with
    | none => { success := false, fills := [] }
    | some cred =>
      let fills := [(u.key, cred.username), (p.key, cred.password)]
      if w.afterSubmitLoginFormPresent then { success := false, fills := fills }
      else { success := true, fills := fills }
  | _, _, _ => { success := false, fills := [] }

/-- `handleAuthentication` (jobApplicationBot.js lines 210-235): a stored
session for the domain that still validates short-circuits to success;
otherwise the strategy is selected by domain substring against the fixed
registry, falling through to the generic flow. -/
def handleAuthentication (w : BotWorld) (loggedInSites : List (String × SessionRec))
    (genericCredentials : List (String × Credential)) (domain : String) : AuthOutcome :=
  if (lookupStr loggedInSites domain).isSome && checkIfStillLoggedIn w then
    { success := true, fills := [] }
  else if containsSub (str "linkedin") (str domain) then w.linkedinOutcome
  else if containsSub (str "indeed") (str domain) then w.indeedOutcome
  else if containsSub (str "glassdoor") (str domain) then w.glassdoorOutcome
  else handleGenericLogin w genericCredentials domain

/-! ## importCVJson / convertToUserData (cvUtils.js) -/

/-- Template-literal interpolation of a possibly-undefined value
(`undefined` prints as "undefined"). -/
def jsUndefStr : Option String → String
  | none => "undefined"
  | some s => s

/-- One `employer_name{i}` / `role_title{i}` / ... slot of the CV JSON
(cvUtils.js reads keys `employer_name`, `employer_name2`, ..,
`employer_name5`; the slots are modelled positionally). -/
structure CVEmployerSlot where
  employer_name : Option String
  role_title : Option String
  start_date : Option String
  end_date : Option String
  country_of_employer : Option String
deriving Repr, DecidableEq

structure CVData where
  first_name : String
  last_name : String
  email : Option String
  phone : Option String
  address1 : Option String
  address2 : Option String
  city : Option String
  county : Option String
  postcode : Option String
  residence : Option String
  citizenship : Option String
  linkedin : Option String
  skills : Option (List String)
  certifications : Option (List String)
  education : Option (List EducationEntry)
  university : Option String
  degree : Option String
  discipline : Option String
  undergrad_start_date : Option String
  undergrad_end_date : Option String
  degree_score : Option String
  school_name : Option String
  school_system : Option String
  school_start_date : Option String
  school_end_date : Option String
  school_grades : Option String
  employers : List CVEmployerSlot
  native_language : Option String
  fluent_language : Option String
  professional_language : Option String
  password : Option String
deriving Repr, DecidableEq

structure CVCredential where
  username : Option String
  password : String
deriving Repr, DecidableEq

/-- The user-data shape produced by `convertToUserData`. -/
structure CVUserData where
  personalInfo : PersonalInfo
  education : List EducationEntry
  experience : List ExperienceEntry
  skills : List String
  languages : List LanguageEntry
  certifications : List String
  workAuthorizationStatus : Option String
  socialMediaProfiles : List (String × String)
  linkedinCredentials : CVCredential
  indeedCredentials : CVCredential
  glassdoorCredentials : CVCredential
deriving Repr, DecidableEq

/-- `generateLocation` (cvUtils.js lines 163-174): join the truthy address
components with ", ". -/
def generateLocation (cv : CVData) : String :=
  joinWith ", "
    (([cv.address1, cv.address2, cv.city, cv.county, cv.postcode, cv.residence]).filterMap
      (fun o =>
        match o with
        | some s => if s == "" then none else some s
        | none => none))

/-- `formatDate` (cvUtils.js lines 212-217): empty for a missing date,
otherwise the string unchanged. -/
def formatDate : Option String → String
  | none => ""
  | some s => s

def monthNames : List String :=
  ["January", "February", "March", "April", "May", "June", "July", "August",
   "September", "October", "November", "December"]

/-- `\d{2}\/\d{2}\/\d{4}` tested anywhere in the string. -/
def dmyAt (s : Chars) : Bool :=
  match takeN isDigitCh 2 s with
  | some (_, '/' :: r1) =>
    (match takeN isDigitCh 2 r1 with
     | some (_, '/' :: r2) => (takeN isDigitCh 4 r2).isSome
     | _ => false)
  | _ => false

def hasDMY : Chars → Bool
  | [] => false
  | c :: tl => dmyAt (c :: tl) || hasDMY tl

/-- `\d{4}-\d{2}` tested anywhere in the string. -/
def ymAt (s : Chars) : Bool :=
  match takeN isDigitCh 4 s with
  | some (_, '-' :: r1) => (takeN isDigitCh 2 r1).isSome
  | _ => false

def hasYM : Chars → Bool
  | [] => false
  | c :: tl => ymAt (c :: tl) || hasYM tl

def splitOnCh (sep : Char) : Chars → List Chars
  | [] => [[]]
  | c :: tl =>
    if c == sep then [] :: splitOnCh sep tl
    else
      match splitOnCh sep tl with
      | p :: ps => (c :: p) :: ps
      | [] => [[c]]

/-- `parseInt` restricted to what `formatDisplayDate` feeds it: leading
whitespace, then decimal digits; no digits means NaN. -/
def parseIntPrefix (s : Chars) : Option Nat :=
  let t := s.dropWhile isWS
  let ds := t.takeWhile isDigitCh
  if ds.isEmpty then none
  else some (ds.foldl (fun acc d => acc * 10 + (d.toNat - 48)) 0)

/-- `months[parseInt(month) - 1]`: an out-of-range or NaN index interpolates
as "undefined". -/
def monthFromPart (part : Chars) : String :=
  match parseIntPrefix part with
  | some m => monthNames.getD (m - 1) "undefined"
  | none => "undefined"

/-- `formatDisplayDate` (cvUtils.js lines 181-205). -/
def formatDisplayDate : Option String → String
  | none => ""
  | some s =>
    if s == "" then ""
    else
      let cs := str s
      if hasDMY cs then
        let parts := splitOnCh '/' cs
        monthFromPart (parts.getD 1 []) ++ " " ++ strOf (parts.getD 2 [])
      else if hasYM cs then
        let parts := splitOnCh '-' cs
        monthFromPart (parts.getD 1 []) ++ " " ++ strOf (parts.getD 0 [])
      else s

/-- `cvData.password || 'placeholder'` (JS truthiness: a missing or empty
password falls back to the placeholder). -/
def jsPasswordOr : Option String → String
  | none => "placeholder"
  | some p => if p == "" then "placeholder" else p

/-- `convertToUserData` (cvUtils.js lines 52-156). -/
def convertToUserData (cv : CVData) : CVUserData :=
  { personalInfo :=
      { fullName := some (cv.first_name ++ " " ++ cv.last_name)
        email := cv.email
        phone := cv.phone
        location := some (generateLocation cv)
        dateOfBirth := none }
    education :=
      -- `cvData.education && Array.isArray(cvData.education)`: an absent (or
      -- non-array, which the model cannot express) value falls through to the
      -- university fields
      match cv.education with
      | some arr => arr
      | none =>
        match cv.university with
        | some uni =>
          if uni == "" then []
          else
            { institution := uni
              degree := some (jsUndefStr cv.degree ++ " in " ++ jsUndefStr cv.discipline)
              dates := some (formatDate cv.undergrad_start_date ++ " to " ++
                formatDate cv.undergrad_end_date)
              gpa := cv.degree_score } ::
            (match cv.school_name with
             | some sn =>
               if sn == "" then []
               else
                 [{ institution := sn
                    degree := cv.school_system
                    dates := some (formatDate cv.school_start_date ++ " to " ++
                      formatDate cv.school_end_date)
                    gpa := cv.school_grades }]
             | none => [])
        | none => []
    experience :=
      (cv.employers.take 5).filterMap (fun emp =>
        match emp.employer_name, emp.role_title with
        | some en, some rt =>
          if en == "" || rt == "" then none
          else
            some { company := en
                   title := some rt
                   dates := some (formatDisplayDate emp.start_date ++ " to " ++
                     formatDisplayDate emp.end_date)
                   description := "Worked as " ++ rt ++ " at " ++ en ++ " in " ++
                     jsUndefStr emp.country_of_employer }
        | _, _ => none)
    skills := cv.skills.getD []
    languages :=
      (match cv.native_language with
       | some l => if l == "" then [] else [{ language := l, proficiency := "Native" }]
       | none => []) ++
      (match cv.fluent_language with
       | some l => if l == "" then [] else [{ language := l, proficiency := "Fluent" }]
       | none => []) ++
      (match cv.professional_language with
       | some l =>
         if l == "" || l == "None" then []
         else [{ language := l, proficiency := "Professional" }]
       | none => [])
    certifications := cv.certifications.getD []
    workAuthorizationStatus := cv.citizenship
    socialMediaProfiles :=
      match cv.linkedin with
      | some l => if l == "" then [] else [("linkedin", l)]
      | none => []
    linkedinCredentials := { username := cv.email, password := jsPasswordOr cv.password }
    indeedCredentials := { username := cv.email, password := jsPasswordOr cv.password }
    glassdoorCredentials := { username := cv.email, password := jsPasswordOr cv.password } }

structure CVImportResult where
  userData : CVUserData
  missingFields : List String
deriving Repr, DecidableEq

/-- `importCVJson` (cvUtils.js lines 9-45): converts the CV JSON and returns
`{ userData, missingFields: [] }` unconditionally.  The surrounding file
reads, backups and writes are external persistence. -/
def importCVJson (cv : CVData) : CVImportResult :=
  { userData := convertToUserData cv, missingFields := [] }

/-! ## Concrete fixtures used to instantiate the verified properties -/

/-- A fully populated profile with empty skills and languages and no
citizenship / social-media keywords anywhere in its serialization. -/
def wProfile : UserData :=
  { personalInfo :=
      { fullName := some "Jo Li"
        email := some "jo@ex.co"
        phone := some "5551234567"
        location := some "Springfield"
        dateOfBirth := some "01/02/1990" }
    education :=
      [{ institution := "State University", degree := some "BS", dates := some "2020",
         gpa := none }]
    experience :=
      [{ company := "Acme", title := some "Dev", dates := some "2021", description := "" }]
    skills := []
    languages := []
    certifications := [] }

/-- A profile whose only content is the skills list `["Go", "Rust"]`. -/
def skillsProfile : UserData := { emptyUserData with skills := ["Go", "Rust"] }

/-- A select control classified as a skills field whose options are Golang and
Python — no option text contains "Go, Rust". -/
def selectSkillsField : InputEl :=
  { name := "skills"
    id := ""
    placeholder := ""
    ty := ""
    tagName := "SELECT"
    label := none
    options := [{ value := "1", text := "Golang" }, { value := "2", text := "Python" }]
    value := none }

/-- A text control whose `name` contains a name keyword, the "first"
sub-keyword and an email keyword at once. -/
def firstNameEmailField : InputEl :=
  { name := "first_name_email"
    id := ""
    placeholder := ""
    ty := ""
    tagName := "INPUT"
    label := none
    options := []
    value := none }

/-- A browser world where only a profile marker is visible (a stored session
validates as still logged in) and nothing else resolves. -/
def cexWorld : BotWorld :=
  { q := fun sel =>
      if sel = "[aria-label=\"Profile\"]" then some { visible := true, key := 1 } else none
    afterSubmitLoginFormPresent := true
    cookies := []
    linkedinOutcome := { success := false, fills := [] }
    indeedOutcome := { success := false, fills := [] }
    glassdoorOutcome := { success := false, fills := [] } }

/-- A stored session for example.com. -/
def cexSites : List (String × SessionRec) := [("example.com", { username := "u", cookie := none })]

/-- A browser world where no selector resolves to any element. -/
def emptyWorld : BotWorld :=
  { q := fun _ => none
    afterSubmitLoginFormPresent := true
    cookies := []
    linkedinOutcome := { success := false, fills := [] }
    indeedOutcome := { success := false, fills := [] }
    glassdoorOutcome := { success := false, fills := [] } }

/-- A CV JSON record with only the two names set: no email, no education, no
languages and no experience. -/
def cvEmptyExample : CVData :=
  { first_name := "A"
    last_name := "B"
    email := none
    phone := none
    address1 := none
    address2 := none
    city := none
    county := none
    postcode := none
    residence := none
    citizenship := none
    linkedin := none
    skills := none
    certifications := none
    education := none
    university := none
    degree := none
    discipline := none
    undergrad_start_date := none
    undergrad_end_date := none
    degree_score := none
    school_name := none
    school_system := none
    school_start_date := none
    school_end_date := none
    school_grades := none
    employers := []
    native_language := none
    fluent_language := none
    professional_language := none
    password := none }

/-! ## Infrastructure lemmas -/

theorem updField_idem {n : Option Chars} {old : Option String} :
    updField n (updField n old) = updField n old := by
  cases n <;> rfl

theorem updField_isSome {n : Option Chars} {old : Option String} (h : old.isSome = true) :
    (updField n old).isSome = true := by
  cases n <;> simp [updField, h]

theorem extractPersonalInfoFields_idem (p : PersonalInfo) (t : Chars) :
    extractPersonalInfoFields (extractPersonalInfoFields p t) t =
      extractPersonalInfoFields p t := by
  unfold extractPersonalInfoFields
  simp [updField_idem]

theorem extractEducation_eq (ud : UserData) (t : Chars) :
    extractEducation ud t = { ud with education := ud.education ++ eduEntries t } := by
  unfold extractEducation eduEntries
  cases h : sectionCapture eduOpen eduClose t <;> simp

theorem extractExperience_eq (ud : UserData) (t : Chars) :
    extractExperience ud t = { ud with experience := ud.experience ++ expEntries t } := by
  unfold extractExperience expEntries
  cases h : sectionCapture expOpen expClose t <;> simp

theorem extractLanguages_eq (ud : UserData) (t : Chars) :
    extractLanguages ud t = { ud with languages := ud.languages ++ langEntries t } := by
  unfold extractLanguages langEntries
  cases h : sectionCapture langOpen langClose t <;> simp

theorem extractCertifications_eq (ud : UserData) (t : Chars) :
    extractCertifications ud t =
      { ud with certifications := ud.certifications ++ certEntries t } := by
  unfold extractCertifications certEntries
  cases h : sectionCapture certOpen certClose t <;> simp

theorem extractSkills_eq (ud : UserData) (t : Chars) :
    extractSkills ud t = { ud with skills := skillsResult ud.skills t } := by
  unfold extractSkills skillsResult
  cases h : sectionCapture skillsOpen skillsClose t <;> simp

theorem skillsResult_idem (old : List String) (t : Chars) :
    skillsResult (skillsResult old t) t = skillsResult old t := by
  unfold skillsResult
  cases h : sectionCapture skillsOpen skillsClose t <;> simp

/-- Normal form of one `extractInformation` pass: personal info is
assign-or-keep, skills is assign-or-keep, the four entry lists are appended
to, and what is appended depends only on the text. -/
theorem extractInformation_eq (ud : UserData) (t : Chars) :
    extractInformation ud t =
      { personalInfo := extractPersonalInfoFields ud.personalInfo t
        education := ud.education ++ eduEntries t
        experience := ud.experience ++ expEntries t
        skills := skillsResult ud.skills t
        languages := ud.languages ++ langEntries t
        certifications := ud.certifications ++ certEntries t } := by
  unfold extractInformation extractPersonalInfo
  rw [extractEducation_eq, extractExperience_eq, extractSkills_eq, extractLanguages_eq,
    extractCertifications_eq]

theorem firstSome_eq_some {f : α → Option β} {l : List α} {b : β}
    (h : firstSome f l = some b) : ∃ a ∈ l, f a = some b := by
  induction l with
  | nil => simp [firstSome] at h
  | cons x xs ih =>
    unfold firstSome at h
    cases hx : f x with
    | some b0 =>
      rw [hx] at h
      exact ⟨x, List.mem_cons_self x xs, by simpa [hx] using h⟩
    | none =>
      rw [hx] at h
      obtain ⟨a, ha, hfa⟩ := ih h
      exact ⟨a, List.mem_cons_of_mem x ha, hfa⟩

theorem takeN_spec {p : Char → Bool} : ∀ {n : Nat} {s h r : Chars},
    takeN p n s = some (h, r) → h.length = n ∧ (∀ c ∈ h, p c = true) ∧ s = h ++ r := by
  intro n
  induction n with
  | zero =>
    intro s h r hs
    simp [takeN] at hs
    simp [hs.1, hs.2]
  | succ m ih =>
    intro s h r hs
    cases s with
    | nil => simp [takeN] at hs
    | cons c tl =>
      unfold takeN at hs
      by_cases hp : p c
      · rw [if_pos hp] at hs
        cases ht : takeN p m tl with
        | none => rw [ht] at hs; simp at hs
        | some pr =>
          obtain ⟨h0, r0⟩ := pr
          rw [ht] at hs
          simp at hs
          obtain ⟨hl, hall, happ⟩ := ih ht
          rw [← hs.1, ← hs.2]
          refine ⟨by simp [hl], ?_, by simp [happ]⟩
          intro x hx
          rcases List.mem_cons.mp hx with rfl | hx
          · exact hp
          · exact hall x hx
      · rw [if_neg hp] at hs; simp at hs

theorem ciSplit_spec : ∀ {tok s h r : Chars},
    ciSplit tok s = some (h, r) → h.map lc = tok ∧ s = h ++ r := by
  intro tok
  induction tok with
  | nil =>
    intro s h r hs
    simp [ciSplit] at hs
    simp [hs.1, hs.2]
  | cons a as ih =>
    intro s h r hs
    cases s with
    | nil => simp [ciSplit] at hs
    | cons b bs =>
      unfold ciSplit at hs
      by_cases hab : a == lc b
      · rw [if_pos hab] at hs
        cases hc : ciSplit as bs with
        | none => rw [hc] at hs; simp at hs
        | some pr =>
          obtain ⟨h0, r0⟩ := pr
          rw [hc] at hs
          simp at hs
          obtain ⟨hmap, happ⟩ := ih hc
          rw [← hs.1, ← hs.2]
          constructor
          · simp [hmap, (beq_iff_eq.mp hab).symm]
          · simp [happ]
      · rw [if_neg hab] at hs; simp at hs

/-- When a literal (given lowercase) heads the text verbatim up to case, the
match consumes exactly it. -/
theorem ciSplit_of_map : ∀ {h : Chars} (r : Chars),
    ciSplit (h.map lc) (h ++ r) = some (h, r) := by
  intro h
  induction h with
  | nil => intro r; simp [ciSplit]
  | cons b bs ih => intro r; simp [ciSplit, ih]

theorem hitAt_spec {toks : List Chars} {s h r : Chars}
    (hh : hitAt toks s = some (h, r)) :
    ∃ tok ∈ toks, ciSplit tok s = some (h, r) :=
  firstSome_eq_some hh

theorem splitTok_spec : ∀ {toks : List Chars} {s p h r : Chars},
    splitTok toks s = some (p, h, r) → ∃ tok ∈ toks, h.map lc = tok := by
  intro toks s
  induction s with
  | nil =>
    intro p h r hs
    unfold splitTok at hs
    cases hh : hitAt toks [] with
    | some pr =>
      obtain ⟨h0, r0⟩ := pr
      rw [hh] at hs
      simp at hs
      obtain ⟨tok, htok, hc⟩ := hitAt_spec hh
      exact ⟨tok, htok, by rw [← hs.2.1]; exact (ciSplit_spec hc).1⟩
    | none => rw [hh] at hs; simp at hs
  | cons c tl ih =>
    intro p h r hs
    unfold splitTok at hs
    cases hh : hitAt toks (c :: tl) with
    | some pr =>
      obtain ⟨h0, r0⟩ := pr
      rw [hh] at hs
      simp at hs
      obtain ⟨tok, htok, hc⟩ := hitAt_spec hh
      exact ⟨tok, htok, by rw [← hs.2.1]; exact (ciSplit_spec hc).1⟩
    | none =>
      rw [hh] at hs
      cases hrec : splitTok toks tl with
      | some pr =>
        obtain ⟨p0, h0, r0⟩ := pr
        rw [hrec] at hs
        simp at hs
        obtain ⟨tok, htok, hmap⟩ := ih hrec
        exact ⟨tok, htok, by rw [← hs.2.1]; exact hmap⟩
      | none => rw [hrec] at hs; simp at hs

theorem splitTok_none_of_hasTok_false {toks : List Chars} {s : Chars}
    (h : hasTok toks s = false) : splitTok toks s = none := by
  unfold hasTok at h
  cases e : splitTok toks s with
  | none => rfl
  | some v => rw [e] at h; simp at h

theorem findQuad_spec : ∀ {s p q r : Chars},
    findQuad s = some (p, q, r) → q ≠ [] ∧ ∀ c ∈ q, isDigitCh c = true := by
  intro s
  induction s with
  | nil => intro p q r hs; simp [findQuad] at hs
  | cons c tl ih =>
    intro p q r hs
    unfold findQuad at hs
    cases ht : takeN isDigitCh 4 (c :: tl) with
    | some pr =>
      obtain ⟨q0, r0⟩ := pr
      rw [ht] at hs
      simp at hs
      obtain ⟨hl, hall, _⟩ := takeN_spec ht
      constructor
      · rw [← hs.2.1]; intro hq; rw [hq] at hl; simp at hl
      · intro x hx; rw [← hs.2.1] at hx; exact hall x hx
    | none =>
      rw [ht] at hs
      cases hrec : findQuad tl with
      | some pr =>
        obtain ⟨p0, q0, r0⟩ := pr
        rw [hrec] at hs
        simp at hs
        obtain ⟨hne, hall⟩ := ih hrec
        exact ⟨by rw [← hs.2.1]; exact hne, by rw [← hs.2.1]; exact hall⟩
      | none => rw [hrec] at hs; simp at hs

theorem scanPos_eq_some {f : Chars → Option β} : ∀ {s : Chars} {i : Nat} {b : β},
    scanPos f s = some (i, b) → ∃ s0, f s0 = some b := by
  intro s
  induction s with
  | nil =>
    intro i b h
    unfold scanPos at h
    cases hf : f [] with
    | some b0 =>
      rw [hf] at h
      simp at h
      exact ⟨[], by rw [hf, h.2]⟩
    | none => rw [hf] at h; simp at h
  | cons c tl ih =>
    intro i b h
    unfold scanPos at h
    cases hf : f (c :: tl) with
    | some b0 =>
      rw [hf] at h
      simp at h
      exact ⟨c :: tl, by rw [hf, h.2]⟩
    | none =>
      rw [hf] at h
      cases hsc : scanPos f tl with
      | some pr =>
        obtain ⟨i0, b0⟩ := pr
        rw [hsc] at h
        simp at h
        obtain ⟨s0, hs0⟩ := ih hsc
        exact ⟨s0, by rw [hs0, h.2]⟩
      | none => rw [hsc] at h; simp at h

theorem rangeAt_spec : ∀ {s g r : Chars},
    rangeAt s = some (g, r) → ∃ c ∈ g, isDigitCh c = true := by
  intro s g r h
  unfold rangeAt at h
  cases hq : takeN isDigitCh 4 s with
  | none => rw [hq] at h; simp at h
  | some pq =>
    obtain ⟨q1, r1⟩ := pq
    rw [hq] at h
    dsimp only at h
    obtain ⟨hl, hall, _⟩ := takeN_spec hq
    have hq1 : q1 ≠ [] := by intro e; rw [e] at hl; simp at hl
    obtain ⟨d, hd⟩ := List.exists_mem_of_ne_nil q1 hq1
    refine ⟨d, ?_, hall d hd⟩
    split at h
    · split at h
      · simp at h
        rw [← h.1]
        simp [hd]
      · split at h
        · simp at h
          rw [← h.1]
          simp [hd]
        · simp at h
    · simp at h

theorem strOf_ne_empty {l : Chars} (h : l ≠ []) : strOf l ≠ "" := by
  intro he
  apply h
  have hd := congrArg String.data he
  simpa [strOf] using hd

theorem ws_cases {c : Char} (h : isWS c = true) :
    c = ' ' ∨ c = '\t' ∨ c = '\n' ∨ c = '\r' ∨ c = Char.ofNat 11 ∨ c = Char.ofNat 12 := by
  simpa [isWS, or_assoc] using h

theorem ws_lc_self {c : Char} (h : isWS c = true) : lc c = c := by
  rcases ws_cases h with rfl | rfl | rfl | rfl | rfl | rfl <;> decide

theorem nonWS_of_lc {c d : Char} (h : lc c = d) (hd : isWS d = false) : isWS c = false := by
  cases hw : isWS c
  · rfl
  · exfalso
    have hcc := ws_lc_self hw
    rw [h] at hcc
    rw [hcc] at hd
    rw [hw] at hd
    exact Bool.noConfusion hd

theorem ws_not_digit {c : Char} (h : isDigitCh c = true) : isWS c = false := by
  cases hw : isWS c
  · rfl
  · rcases ws_cases hw with rfl | rfl | rfl | rfl | rfl | rfl <;> exact absurd h (by decide)

theorem dropWhile_append_last {p : Char → Bool} {c : Char} (hc : p c = false) :
    ∀ (xs : Chars), List.dropWhile p (xs ++ [c]) = List.dropWhile p xs ++ [c] := by
  intro xs
  induction xs with
  | nil => simp [List.dropWhile, hc]
  | cons x xt ih =>
    by_cases hx : p x
    · simpa [List.dropWhile, hx] using ih
    · simp [List.dropWhile, hx]

theorem trim_cons {c : Char} (hc : isWS c = false) (l : Chars) :
    trimChars (c :: l) = c :: (l.reverse.dropWhile isWS).reverse := by
  unfold trimChars
  have h1 : (c :: l).dropWhile isWS = c :: l := by simp [List.dropWhile, hc]
  rw [h1, List.reverse_cons, dropWhile_append_last hc, List.reverse_append]
  simp

theorem trimChars_eq_nil {l : Chars} (h : trimChars l = []) : ∀ c ∈ l, isWS c = true := by
  unfold trimChars at h
  rw [List.reverse_eq_nil_iff, List.dropWhile_eq_nil_iff] at h
  intro c hc
  rw [← List.takeWhile_append_dropWhile (p := isWS) (l := l)] at hc
  rcases List.mem_append.mp hc with hc | hc
  · exact List.mem_takeWhile_imp hc
  · exact h c (List.mem_reverse.mpr hc)

theorem trim_ne_nil {l : Chars} (h : ∃ c ∈ l, isWS c = false) : trimChars l ≠ [] := by
  intro he
  obtain ⟨c, hc, hw⟩ := h
  have := trimChars_eq_nil he c hc
  rw [this] at hw
  exact Bool.noConfusion hw

theorem splitTok_of_hitAt {toks : List Chars} {s h r : Chars}
    (hh : hitAt toks s = some (h, r)) : splitTok toks s = some ([], h, r) := by
  cases s with
  | nil => unfold splitTok; rw [hh]
  | cons c tl => unfold splitTok; rw [hh]

theorem splitTok_append {toks : List Chars} : ∀ (pre s : Chars),
    (∀ i, i < pre.length → hitAt toks ((pre ++ s).drop i) = none) →
    splitTok toks (pre ++ s) =
      (splitTok toks s).map (fun x => (pre ++ x.1, x.2.1, x.2.2)) := by
  intro pre
  induction pre with
  | nil =>
    intro s _
    cases e : splitTok toks s with
    | none => simp [e]
    | some v =>
      obtain ⟨p, h, r⟩ := v
      simp [e]
  | cons c pr ih =>
    intro s H
    rw [List.cons_append]
    have h0 : hitAt toks (c :: (pr ++ s)) = none := by
      have := H 0 (by simp)
      simpa using this
    have hrec := ih s (fun i hi => by
      have := H (i + 1) (by simpa using Nat.succ_lt_succ hi)
      simpa using this)
    have hL : splitTok toks (c :: (pr ++ s)) =
        (match hitAt toks (c :: (pr ++ s)) with
         | some (h, r) => some ([], h, r)
         | none =>
           match splitTok toks (pr ++ s) with
           | some (p, h, r) => some (c :: p, h, r)
           | none => none) := rfl
    cases e : splitTok toks s with
    | none =>
      rw [e] at hrec
      dsimp only [Option.map] at hrec
      rw [hL, h0]
      dsimp only
      rw [hrec]
      simp
    | some v =>
      obtain ⟨p, h, r⟩ := v
      rw [e] at hrec
      dsimp only [Option.map] at hrec
      rw [hL, h0]
      dsimp only
      rw [hrec]
      simp

/-- The section regex on a text of shape `pre ++ opener ++ mid ++ closer ++ rest`
where no opener occurs before `opener` and no closer occurs in `mid` before
`closer`: the capture is exactly `opener ++ mid ++ closer` — it stops at the
end of the closing heading token and includes nothing of `rest` (the next
section's body). -/
theorem sectionCapture_exact {openers closers : List Chars} (pre op mid cl rest : Chars)
    (H1 : ∀ i, i < pre.length →
      hitAt openers ((pre ++ (op ++ (mid ++ (cl ++ rest)))).drop i) = none)
    (H2 : hitAt openers (op ++ (mid ++ (cl ++ rest))) = some (op, mid ++ (cl ++ rest)))
    (H3 : ∀ i, i < mid.length → hitAt closers ((mid ++ (cl ++ rest)).drop i) = none)
    (H4 : hitAt closers (cl ++ rest) = some (cl, rest)) :
    sectionCapture openers closers (pre ++ (op ++ (mid ++ (cl ++ rest)))) =
      some (op ++ mid ++ cl) := by
  unfold sectionCapture
  rw [splitTok_append pre _ H1, splitTok_of_hitAt H2]
  dsimp only [Option.map]
  rw [splitTok_append mid _ H3, splitTok_of_hitAt H4]
  dsimp only [Option.map]
  simp [List.append_assoc]

theorem scanRange_spec : ∀ {s p g r : Chars},
    scanRange s = some (p, g, r) → ∃ c ∈ g, isDigitCh c = true := by
  intro s
  induction s with
  | nil => intro p g r hs; simp [scanRange] at hs
  | cons c tl ih =>
    intro p g r hs
    unfold scanRange at hs
    cases ht : rangeAt (c :: tl) with
    | some pr =>
      obtain ⟨g0, r0⟩ := pr
      rw [ht] at hs
      simp at hs
      obtain ⟨d, hd, hdig⟩ := rangeAt_spec ht
      exact ⟨d, by rw [← hs.2.1]; exact hd, hdig⟩
    | none =>
      rw [ht] at hs
      cases hrec : scanRange tl with
      | some pr =>
        obtain ⟨p0, g0, r0⟩ := pr
        rw [hrec] at hs
        simp at hs
        obtain ⟨d, hd, hdig⟩ := ih hrec
        exact ⟨d, by rw [← hs.2.1]; exact hd, hdig⟩
      | none => rw [hrec] at hs; simp at hs

theorem uniAt_digit : ∀ {s m0 r : Chars},
    uniAt s = some (m0, r) → ∃ c ∈ m0, isDigitCh c = true := by
  intro s m0 r h
  unfold uniAt at h
  cases ha : uniAltA s with
  | some v =>
    obtain ⟨a0, a1⟩ := v
    rw [ha] at h
    simp at h
    unfold uniAltA at ha
    obtain ⟨k, _, hk⟩ := firstSome_eq_some ha
    cases hc : ciSplit (str "university") (s.drop k) with
    | none => rw [hc] at hk; simp at hk
    | some pc =>
      obtain ⟨hit, r1⟩ := pc
      rw [hc] at hk
      dsimp only at hk
      cases hf : findQuad r1 with
      | none => rw [hf] at hk; simp at hk
      | some pf =>
        obtain ⟨mid, quad, rest⟩ := pf
        rw [hf] at hk
        simp at hk
        obtain ⟨hne, hdig⟩ := findQuad_spec hf
        obtain ⟨d, hd⟩ := List.exists_mem_of_ne_nil quad hne
        refine ⟨d, ?_, hdig d hd⟩
        rw [← h.1, ← hk.1]
        simp [hd]
  | none =>
    rw [ha] at h
    obtain ⟨tok, _, hk⟩ := firstSome_eq_some h
    cases hc : ciSplit tok s with
    | none => rw [hc] at hk; simp at hk
    | some pc =>
      obtain ⟨hit, r1⟩ := pc
      rw [hc] at hk
      dsimp only at hk
      cases hf : findQuad r1 with
      | none => rw [hf] at hk; simp at hk
      | some pf =>
        obtain ⟨mid, quad, rest⟩ := pf
        rw [hf] at hk
        simp at hk
        obtain ⟨hne, hdig⟩ := findQuad_spec hf
        obtain ⟨d, hd⟩ := List.exists_mem_of_ne_nil quad hne
        refine ⟨d, ?_, hdig d hd⟩
        rw [← hk.1]
        simp [hd]

theorem compAt_digit : ∀ {s m0 r : Chars},
    compAt s = some (m0, r) → ∃ c ∈ m0, isDigitCh c = true := by
  intro s m0 r h
  unfold compAt at h
  obtain ⟨k, _, hk⟩ := firstSome_eq_some h
  cases hc : scanRange (s.drop k) with
  | none => rw [hc] at hk; simp at hk
  | some pc =>
    obtain ⟨mid, rg, rest⟩ := pc
    rw [hc] at hk
    simp at hk
    obtain ⟨d, hd, hdig⟩ := scanRange_spec hc
    refine ⟨d, ?_, hdig⟩
    rw [← hk.1]
    simp [hd]

theorem certAt_shape : ∀ {s run hit rest : Chars},
    certAt s = some (run, hit, rest) → ∃ tok ∈ certToks, hit.map lc = tok := by
  intro s run hit rest h
  unfold certAt at h
  obtain ⟨k, _, hk⟩ := firstSome_eq_some h
  cases hc : hitAt certToks (s.drop k) with
  | none => rw [hc] at hk; simp at hk
  | some pc =>
    obtain ⟨h0, r0⟩ := pc
    rw [hc] at hk
    simp at hk
    obtain ⟨tok, htok, hcs⟩ := hitAt_spec hc
    exact ⟨tok, htok, by rw [← hk.2.1]; exact (ciSplit_spec hcs).1⟩

theorem exists_nonWS_of_map_lc {hit tok : Chars} (hmap : hit.map lc = tok)
    (h : ∃ d ∈ tok, isWS d = false) : ∃ c ∈ hit, isWS c = false := by
  obtain ⟨d, hd, hwd⟩ := h
  rw [← hmap] at hd
  obtain ⟨c, hc, hcd⟩ := List.mem_map.mp hd
  exact ⟨c, hc, nonWS_of_lc hcd hwd⟩

theorem eduLoop_institution (sec : Chars) : ∀ (fuel pos : Nat) (s : Chars),
    ∀ e ∈ eduLoop sec fuel pos s, e.institution ≠ "" := by
  intro fuel
  induction fuel with
  | zero => intro pos s e he; simp [eduLoop] at he
  | succ n ih =>
    intro pos s e he
    unfold eduLoop at he
    cases h : scanPos uniAt s with
    | none => rw [h] at he; simp at he
    | some v =>
      obtain ⟨i, m0, rest⟩ := v
      rw [h] at he
      dsimp only at he
      rcases List.mem_cons.mp he with rfl | he
      · show strOf (trimChars m0) ≠ ""
        apply strOf_ne_empty
        apply trim_ne_nil
        obtain ⟨s0, hs0⟩ := scanPos_eq_some h
        obtain ⟨d, hd, hdig⟩ := uniAt_digit hs0
        exact ⟨d, hd, ws_not_digit hdig⟩
      · exact ih (pos + i + m0.length) rest e he

theorem expLoop_company (sec : Chars) : ∀ (fuel pos : Nat) (s : Chars),
    ∀ e ∈ expLoop sec fuel pos s, e.company ≠ "" := by
  intro fuel
  induction fuel with
  | zero => intro pos s e he; simp [expLoop] at he
  | succ n ih =>
    intro pos s e he
    unfold expLoop at he
    cases h : scanPos compAt s with
    | none => rw [h] at he; simp at he
    | some v =>
      obtain ⟨i, m0, rest⟩ := v
      rw [h] at he
      dsimp only at he
      rcases List.mem_cons.mp he with rfl | he
      · show strOf (trimChars m0) ≠ ""
        apply strOf_ne_empty
        apply trim_ne_nil
        obtain ⟨s0, hs0⟩ := scanPos_eq_some h
        obtain ⟨d, hd, hdig⟩ := compAt_digit hs0
        exact ⟨d, hd, ws_not_digit hdig⟩
      · exact ih (pos + i + m0.length) rest e he

theorem certLoop_name (sec : Chars) : ∀ (fuel pos : Nat) (s : Chars),
    ∀ e ∈ certLoop sec fuel pos s, e.name ≠ "" := by
  intro fuel
  induction fuel with
  | zero => intro pos s e he; simp [certLoop] at he
  | succ n ih =>
    intro pos s e he
    unfold certLoop at he
    cases h : scanPos certAt s with
    | none => rw [h] at he; simp at he
    | some v =>
      obtain ⟨i, run, hit, rest⟩ := v
      rw [h] at he
      dsimp only at he
      rcases List.mem_cons.mp he with rfl | he
      · show strOf (trimChars (run ++ hit)) ≠ ""
        apply strOf_ne_empty
        apply trim_ne_nil
        obtain ⟨s0, hs0⟩ := scanPos_eq_some h
        obtain ⟨tok, htok, hmap⟩ := certAt_shape hs0
        have hex : ∃ d ∈ tok, isWS d = false := by
          simp only [certToks, List.mem_cons, List.not_mem_nil, or_false] at htok
          rcases htok with h1 | h1 | h1
          · rw [h1]; exact ⟨'c', by decide, by decide⟩
          · rw [h1]; exact ⟨'c', by decide, by decide⟩
          · rw [h1]; exact ⟨'l', by decide, by decide⟩
        obtain ⟨c, hc, hcw⟩ := exists_nonWS_of_map_lc hmap hex
        exact ⟨c, List.mem_append_right run hc, hcw⟩
      · exact ih (pos + i + (run ++ hit).length) rest e he

theorem tier1Entry_lang {sec lang : Chars} {e : LanguageEntry}
    (h : tier1Entry sec lang = some e) : e.language = strOf lang := by
  unfold tier1Entry at h
  cases hl : langRegexFind lang sec with
  | some m0 =>
    rw [hl] at h
    simp at h
    rw [← h]
  | none =>
    rw [hl] at h
    dsimp only at h
    by_cases hc : containsSub lang sec
    · rw [if_pos hc] at h
      simp at h
      rw [← h]
    · rw [if_neg hc] at h
      simp at h

theorem tier2Entry_lang {t lang : Chars} {e : LanguageEntry}
    (h : tier2Entry t lang = some e) : e.language = strOf lang := by
  unfold tier2Entry at h
  by_cases hc : containsSub lang t
  · rw [if_pos hc] at h
    cases hm : ctxRegexFind lang t with
    | some m0 =>
      rw [hm] at h
      simp at h
      rw [← h]
    | none => rw [hm] at h; simp at h
  · rw [if_neg hc] at h
    simp at h

theorem langEntries_language : ∀ {t : Chars} {e : LanguageEntry},
    e ∈ langEntries t → e.language ≠ "" := by
  intro t e he
  unfold langEntries at he
  have hlangs : ∀ lang ∈ commonLanguages, strOf lang ≠ "" := by decide
  cases h : sectionCapture langOpen langClose t with
  | some sec =>
    rw [h] at he
    unfold tier1Entries at he
    obtain ⟨lang, hlang, hf⟩ := List.mem_filterMap.mp he
    rw [tier1Entry_lang hf]
    exact hlangs lang hlang
  | none =>
    rw [h] at he
    unfold tier2Entries at he
    obtain ⟨lang, hlang, hf⟩ := List.mem_filterMap.mp he
    rw [tier2Entry_lang hf]
    exact hlangs lang hlang

theorem splitSeps_ne_nil : ∀ (l : Chars), splitSeps l ≠ [] := by
  intro l
  cases l with
  | nil => simp [splitSeps]
  | cons c tl =>
    unfold splitSeps
    by_cases h : isSkillSep c
    · simp [h]
    · simp only [h]
      cases e : splitSeps tl <;> simp

theorem splitSeps_append {op : Chars} : ∀ (X : Chars),
    (∀ c ∈ op, isSkillSep c = false) →
    ∃ p0 ps, splitSeps (op ++ X) = (op ++ p0) :: ps ∧ splitSeps X = p0 :: ps := by
  induction op with
  | nil =>
    intro X _
    cases e : splitSeps X with
    | nil => exact absurd e (splitSeps_ne_nil X)
    | cons p0 ps =>
      refine ⟨p0, ps, ?_, rfl⟩
      simpa using e
  | cons c ct ih =>
    intro X hop
    obtain ⟨p0, ps, h1, h2⟩ := ih X (fun d hd => hop d (List.mem_cons_of_mem c hd))
    have hc : isSkillSep c = false := hop c (List.mem_cons_self c ct)
    refine ⟨p0, ps, ?_, h2⟩
    rw [List.cons_append]
    have hL : splitSeps (c :: (ct ++ X)) =
        (if isSkillSep c then [] :: splitSeps (ct ++ X)
         else
           match splitSeps (ct ++ X) with
           | p :: ps2 => (c :: p) :: ps2
           | [] => [[c]]) := rfl
    rw [hL, h1]
    simp [hc]

theorem revDrop_cons {c : Char} (hc : isWS c = false) (l : Chars) :
    ((c :: l).reverse.dropWhile isWS).reverse = c :: (l.reverse.dropWhile isWS).reverse := by
  rw [List.reverse_cons, dropWhile_append_last hc, List.reverse_append]
  simp

theorem trim_cons2 {a b : Char} (ha : isWS a = false) (hb : isWS b = false) (l : Chars) :
    trimChars (a :: b :: l) = a :: b :: (l.reverse.dropWhile isWS).reverse := by
  rw [trim_cons ha, revDrop_cons hb]

theorem ciEq_off1 {k0 o1 : Char} {kw l : Chars} (h : (k0 == lc o1) = false) :
    ciEqTok (k0 :: kw) (o1 :: l) = false := by
  unfold ciEqTok
  have hc : ciSplit (k0 :: kw) (o1 :: l) = none := by
    unfold ciSplit
    simp [h]
  simp [hc]

theorem ciEq_off2 {k0 k1 o1 o2 : Char} {kw l : Chars} (h : (k1 == lc o2) = false) :
    ciEqTok (k0 :: k1 :: kw) (o1 :: o2 :: l) = false := by
  unfold ciEqTok
  have hc2 : ciSplit (k1 :: kw) (o2 :: l) = none := by
    unfold ciSplit
    simp [h]
  have hc : ∀ v, ciSplit (k0 :: k1 :: kw) (o1 :: o2 :: l) = some v → False := by
    intro v hv
    unfold ciSplit at hv
    rw [hc2] at hv
    by_cases h0 : (k0 == lc o1) = true
    · rw [if_pos h0] at hv
      simp at hv
    · rw [if_neg h0] at hv
      simp at hv
  cases e : ciSplit (k0 :: k1 :: kw) (o1 :: o2 :: l) with
  | none => simp
  | some v => exact absurd e (fun e2 => hc v e2)

theorem sep_lc_self {c : Char} (h : isSkillSep c = true) : lc c = c := by
  have : c = ',' ∨ c = Char.ofNat 0x2022 ∨ c = Char.ofNat 0xB7 := by
    simpa [isSkillSep, or_assoc] using h
  rcases this with rfl | rfl | rfl <;> decide

theorem op_not_sep {op tok : Chars} (hmap : op.map lc = tok)
    (hfree : ∀ d ∈ tok, isSkillSep d = false) : ∀ c ∈ op, isSkillSep c = false := by
  intro c hc
  cases hs : isSkillSep c
  · rfl
  · exfalso
    have hl := sep_lc_self hs
    have hmem : lc c ∈ tok := hmap ▸ List.mem_map_of_mem lc hc
    rw [hl] at hmem
    have := hfree c hmem
    rw [hs] at this
    exact Bool.noConfusion this

theorem dedupAcc_ne_nil {x : Chars} {xs : List Chars} : dedupAcc [] (x :: xs) ≠ [] := by
  unfold dedupAcc
  simp [List.contains]

/-- The split-trim-filter-dedup pipeline on a matched skills section: the piece
holding the section opener survives, so the computed skills list is never
empty. -/
theorem skillsListOf_op {op X tok : Chars} (htok : tok ∈ skillsOpen)
    (hmap : op.map lc = tok) : skillsListOf (op ++ X) ≠ [] := by
  simp only [skillsOpen, List.mem_cons, List.not_mem_nil, or_false] at htok
  have hsep : ∀ c ∈ op, isSkillSep c = false := by
    rcases htok with rfl | rfl | rfl <;> exact op_not_sep hmap (by decide)
  obtain ⟨p0, ps, hsplit, _⟩ := splitSeps_append X hsep
  cases op with
  | nil =>
    exfalso
    have hnil : ([] : Chars) = tok := by simpa using hmap
    rcases htok with rfl | rfl | rfl <;> exact absurd hnil (by decide)
  | cons o1 op1 =>
    cases op1 with
    | nil =>
      exfalso
      have hlen : 1 = tok.length := by
        have := congrArg List.length hmap
        simpa using this
      rcases htok with rfl | rfl | rfl <;> exact absurd hlen (by decide)
    | cons o2 op2 =>
      have hmap2 : lc o1 :: lc o2 :: op2.map lc = tok := by simpa using hmap
      have h12 : (lc o1 = 's' ∧ lc o2 = 'k') ∨ (lc o1 = 't' ∧ lc o2 = 'e') ∨
          (lc o1 = 'c' ∧ lc o2 = 'o') := by
        rcases htok with rfl | rfl | rfl
        · rw [show str "skills" = 's' :: 'k' :: str "ills" from rfl] at hmap2
          simp at hmap2
          exact Or.inl ⟨hmap2.1, hmap2.2.1⟩
        · rw [show str "technical skills" = 't' :: 'e' :: str "chnical skills" from rfl] at hmap2
          simp at hmap2
          exact Or.inr (Or.inl ⟨hmap2.1, hmap2.2.1⟩)
        · rw [show str "core competencies" = 'c' :: 'o' :: str "re competencies" from rfl] at hmap2
          simp at hmap2
          exact Or.inr (Or.inr ⟨hmap2.1, hmap2.2.1⟩)
      have hw1 : isWS o1 = false := by
        rcases h12 with ⟨h1, _⟩ | ⟨h1, _⟩ | ⟨h1, _⟩ <;> exact nonWS_of_lc h1 (by decide)
      have hw2 : isWS o2 = false := by
        rcases h12 with ⟨_, h2⟩ | ⟨_, h2⟩ | ⟨_, h2⟩ <;> exact nonWS_of_lc h2 (by decide)
      have hhead : ∀ (W : Chars), isHeadingWord (o1 :: o2 :: W) = false := by
        intro W
        rcases h12 with ⟨h1, h2⟩ | ⟨h1, h2⟩ | ⟨h1, h2⟩
        · have e1 : ciEqTok (str "languages") (o1 :: o2 :: W) = false :=
            ciEq_off1 (by rw [h1]; decide)
          have e2 : ciEqTok (str "experience") (o1 :: o2 :: W) = false :=
            ciEq_off1 (by rw [h1]; decide)
          have e3 : ciEqTok (str "education") (o1 :: o2 :: W) = false :=
            ciEq_off1 (by rw [h1]; decide)
          have e4 : ciEqTok (str "certifications") (o1 :: o2 :: W) = false :=
            ciEq_off1 (by rw [h1]; decide)
          simp [isHeadingWord, e1, e2, e3, e4]
        · have e1 : ciEqTok (str "languages") (o1 :: o2 :: W) = false :=
            ciEq_off1 (by rw [h1]; decide)
          have e2 : ciEqTok (str "experience") (o1 :: o2 :: W) = false :=
            ciEq_off1 (by rw [h1]; decide)
          have e3 : ciEqTok (str "education") (o1 :: o2 :: W) = false :=
            ciEq_off1 (by rw [h1]; decide)
          have e4 : ciEqTok (str "certifications") (o1 :: o2 :: W) = false :=
            ciEq_off1 (by rw [h1]; decide)
          simp [isHeadingWord, e1, e2, e3, e4]
        · have e1 : ciEqTok (str "languages") (o1 :: o2 :: W) = false :=
            ciEq_off1 (by rw [h1]; decide)
          have e2 : ciEqTok (str "experience") (o1 :: o2 :: W) = false :=
            ciEq_off1 (by rw [h1]; decide)
          have e3 : ciEqTok (str "education") (o1 :: o2 :: W) = false :=
            ciEq_off1 (by rw [h1]; decide)
          have e4 : ciEqTok (str "certifications") (o1 :: o2 :: W) = false :=
            ciEq_off2 (by rw [h2]; decide)
          simp [isHeadingWord, e1, e2, e3, e4]
      unfold skillsListOf
      rw [hsplit, List.map_cons]
      have htr : trimChars ((o1 :: o2 :: op2) ++ p0) =
          o1 :: o2 :: (((op2 ++ p0).reverse.dropWhile isWS).reverse) := by
        rw [List.cons_append, List.cons_append, trim_cons2 hw1 hw2]
      rw [htr]
      rw [List.filter_cons_of_pos (by simp [hhead])]
      exact dedupAcc_ne_nil

/-! ## Claim theorems -/

/-- C10: the CV-JSON import path bypasses completeness analysis entirely:
`importCVJson` returns `missingFields = []` for every input CV JSON object,
however incomplete the converted user data is — here a CV with no email, no
education, no languages and no experience still reports no missing fields. -/
theorem spec_C10 :
    (∀ cv : CVData, (importCVJson cv).missingFields = []) ∧
    (importCVJson cvEmptyExample).missingFields = [] ∧
    (convertToUserData cvEmptyExample).personalInfo.email = none ∧
    (convertToUserData cvEmptyExample).education = [] ∧
    (convertToUserData cvEmptyExample).languages = [] ∧
    (convertToUserData cvEmptyExample).experience = [] := by
  refine ⟨fun cv => rfl, rfl, rfl, rfl, rfl, rfl⟩

/-- C9: `parseResume` on a file whose lowercased extension is not `.pdf`,
`.docx` or `.txt` throws the unsupported-format error and yields no profile
data; each of the three supported extensions selects the corresponding
decoder and parsing proceeds without that error. -/
theorem spec_C9 (decode : ResumeFormat → Chars) (p : String) :
    (strOf (lowerStr (str (extname p))) ∉ [".pdf", ".docx", ".txt"] →
      parseResume decode p = .error "Unsupported file format") ∧
    (strOf (lowerStr (str (extname p))) = ".pdf" →
      parseResume decode p = .ok (runParser (decode .pdf))) ∧
    (strOf (lowerStr (str (extname p))) = ".docx" →
      parseResume decode p = .ok (runParser (decode .docx))) ∧
    (strOf (lowerStr (str (extname p))) = ".txt" →
      parseResume decode p = .ok (runParser (decode .txt))) := by
  refine ⟨?_, ?_, ?_, ?_⟩ <;> intro h
  · simp only [List.mem_cons, List.not_mem_nil, or_false, not_or] at h
    simp only [parseResume, chooseFormat]
    rw [if_neg h.1, if_neg h.2.1, if_neg h.2.2]
  · simp only [parseResume, chooseFormat]
    rw [if_pos h]
  · simp only [parseResume, chooseFormat]
    rw [if_neg (by rw [h]; decide), if_pos h]
  · simp only [parseResume, chooseFormat]
    rw [if_neg (by rw [h]; decide), if_neg (by rw [h]; decide), if_pos h]

theorem spec_C9_witness :
    strOf (lowerStr (str (extname "resume.doc"))) ∉ [".pdf", ".docx", ".txt"] ∧
    parseResume (fun _ => []) "resume.doc" = .error "Unsupported file format" ∧
    strOf (lowerStr (str (extname "dir/resume.PDF"))) = ".pdf" ∧
    parseResume (fun _ => []) "dir/resume.PDF" = .ok (runParser []) :=
  ⟨by decide, (spec_C9 (fun _ => []) "resume.doc").1 (by decide), by decide,
   (spec_C9 (fun _ => []) "dir/resume.PDF").2.1 (by decide)⟩

/-- C7: the classification chain evaluates the name predicate before the email
predicate, so any control whose `name` contains the "name" keyword — even
together with an email keyword — is classified by the name branch, and the
"first" sub-keyword makes that `firstName`. -/
theorem spec_C7 (i : InputEl)
    (hname : kwHit i "name" = true)
    (hfirst : kwHit i "first" = true)
    (_hemail : kwHit i "email" = true) :
    classifyInput i = some FieldType.firstName := by
  unfold classifyInput
  simp [hname, hfirst]

theorem spec_C7_witness :
    kwHit firstNameEmailField "name" = true ∧
    kwHit firstNameEmailField "first" = true ∧
    kwHit firstNameEmailField "email" = true ∧
    classifyInput firstNameEmailField = some FieldType.firstName :=
  ⟨by decide, by decide, by decide,
   spec_C7 firstNameEmailField (by decide) (by decide) (by decide)⟩

theorem genericLogin_noCred {w : BotWorld} {creds : List (String × Credential)}
    {domain : String} (h : lookupStr creds domain = none) :
    handleGenericLogin w creds domain = { success := false, fills := [] } := by
  unfold handleGenericLogin
  cases findVisibleEl w usernameSelectors <;>
    cases findVisibleEl w passwordSelectors <;>
    cases findVisibleEl w submitSelectors <;>
    simp [h]

theorem genericLogin_missingEl {w : BotWorld} {creds : List (String × Credential)}
    {domain : String}
    (h : findVisibleEl w usernameSelectors = none ∨ findVisibleEl w passwordSelectors = none ∨
      findVisibleEl w submitSelectors = none) :
    handleGenericLogin w creds domain = { success := false, fills := [] } := by
  unfold handleGenericLogin
  rcases h with h | h | h <;> rw [h] <;>
    cases findVisibleEl w usernameSelectors <;>
    cases findVisibleEl w passwordSelectors <;>
    cases findVisibleEl w submitSelectors <;>
    simp

/-- C8 (amended): a domain outside the {linkedin, indeed, glassdoor} registry
with no pre-registered generic credential fails authentication without any
form fill, *provided no stored session for the domain validates* (the code
short-circuits to success on a stored session whose logged-in markers are
visible); and independently, if any of the username, password or submit
elements fails to resolve to a visible element, the generic flow fails
immediately with no partial fill. -/
theorem spec_C8 (w : BotWorld) (sites : List (String × SessionRec))
    (creds : List (String × Credential)) (domain : String)
    (h1 : containsSub (str "linkedin") (str domain) = false)
    (h2 : containsSub (str "indeed") (str domain) = false)
    (h3 : containsSub (str "glassdoor") (str domain) = false)
    (h4 : lookupStr creds domain = none)
    (h5 : lookupStr sites domain = none ∨ checkIfStillLoggedIn w = false) :
    handleAuthentication w sites creds domain = { success := false, fills := [] } ∧
    (∀ (w2 : BotWorld) (creds2 : List (String × Credential)) (domain2 : String),
      (findVisibleEl w2 usernameSelectors = none ∨
        findVisibleEl w2 passwordSelectors = none ∨
        findVisibleEl w2 submitSelectors = none) →
      handleGenericLogin w2 creds2 domain2 = { success := false, fills := [] }) := by
  constructor
  · have hsess : ((lookupStr sites domain).isSome && checkIfStillLoggedIn w) = false := by
      rcases h5 with h5 | h5 <;> simp [h5]
    unfold handleAuthentication
    rw [hsess, h1, h2, h3]
    simp only [Bool.false_eq_true, if_false]
    exact genericLogin_noCred h4
  · intro w2 creds2 domain2 hmiss
    exact genericLogin_missingEl hmiss

theorem spec_C8_witness :
    containsSub (str "linkedin") (str "example.com") = false ∧
    containsSub (str "indeed") (str "example.com") = false ∧
    containsSub (str "glassdoor") (str "example.com") = false ∧
    lookupStr ([] : List (String × Credential)) "example.com" = none ∧
    lookupStr ([] : List (String × SessionRec)) "example.com" = none ∧
    findVisibleEl emptyWorld usernameSelectors = none ∧
    handleAuthentication emptyWorld [] [] "example.com" = { success := false, fills := [] } ∧
    handleGenericLogin emptyWorld [] "example.com" = { success := false, fills := [] } :=
  ⟨by decide, by decide, by decide, rfl, rfl, rfl,
   (spec_C8 emptyWorld [] [] "example.com" (by decide) (by decide) (by decide) rfl
     (Or.inl rfl)).1,
   (spec_C8 emptyWorld [] [] "example.com" (by decide) (by decide) (by decide) rfl
     (Or.inl rfl)).2 emptyWorld [] "example.com" (Or.inl rfl)⟩

/-- C8 counterexample to the claim as stated: for the unregistered domain
example.com with no generic credential but a stored session whose logged-in
marker is visible, `handleAuthentication` returns success, not failure. -/
theorem spec_C8_cex :
    containsSub (str "linkedin") (str "example.com") = false ∧
    containsSub (str "indeed") (str "example.com") = false ∧
    containsSub (str "glassdoor") (str "example.com") = false ∧
    lookupStr ([] : List (String × Credential)) "example.com" = none ∧
    (handleAuthentication cexWorld cexSites [] "example.com").success = true := by
  refine ⟨by decide, by decide, by decide, rfl, ?_⟩
  rfl

/-- C6 (amended): an enumerated control whose computed value matches no option
text (case-insensitive containment) is left unfilled — never forced to the
first option — and contributes nothing to the filled-field count; the object
`autoFillApplication` returns carries only the success flag and that count,
with no skipped-descriptor report. -/
theorem spec_C6 (ud : UserData) (i : InputEl) (ft : FieldType) (v : String)
    (hsel : i.tagName = "SELECT")
    (hcls : classifyInput i = some ft)
    (hval : computeValue ud ft i.tagName = some v)
    (hne : (v == "") = false)
    (hopt : i.options.find? (optionMatches v) = none) :
    fillOne ud i = (i, 0) ∧
    (autoFillApplication ud [i]).1 = [i] ∧
    (autoFillApplication ud [i]).2 = { success := true, filledFields := 0 } := by
  have hfill : fillOne ud i = (i, 0) := by
    unfold fillOne
    rw [hcls]
    dsimp only
    rw [hval]
    simp [hne, hsel, hopt]
  refine ⟨hfill, ?_, ?_⟩ <;> simp [autoFillApplication, hfill]

theorem spec_C6_witness :
    selectSkillsField.tagName = "SELECT" ∧
    classifyInput selectSkillsField = some FieldType.skills ∧
    computeValue skillsProfile FieldType.skills selectSkillsField.tagName = some "Go, Rust" ∧
    selectSkillsField.options.find? (optionMatches "Go, Rust") = none ∧
    fillOne skillsProfile selectSkillsField = (selectSkillsField, 0) :=
  ⟨rfl, by decide, by decide, by decide,
   (spec_C6 skillsProfile selectSkillsField FieldType.skills "Go, Rust" rfl (by decide)
     (by decide) (by decide) (by decide)).1⟩

/-- C6 counterexample to the reporting part of the claim as stated: running
autofill over a form that skips the skills select for lack of a matching
option returns exactly the same result object as running it over an empty
form — the returned `{ success, filledFields }` carries no skipped
descriptors and no reasons. -/
theorem spec_C6_cex :
    (autoFillApplication skillsProfile [selectSkillsField]).2 =
      (autoFillApplication skillsProfile []).2 ∧
    (autoFillApplication skillsProfile [selectSkillsField]).1 = [selectSkillsField] := by
  constructor <;> rfl

/-- C1: the completeness analysis is a pure function of the assembled profile
and emits tickets in the fixed rule order; for a profile with every
personal-info attribute populated, complete education and work experience,
empty skills and languages, and neither keyword family in its serialization,
the ticket list is exactly
`[skills, languages, references, workAuthorizationStatus, socialMediaProfiles]`. -/
theorem spec_C1 (ud : UserData)
    (h1 : jsTruthy ud.personalInfo.fullName = true)
    (h2 : jsTruthy ud.personalInfo.email = true)
    (h3 : jsTruthy ud.personalInfo.phone = true)
    (h4 : jsTruthy ud.personalInfo.location = true)
    (h5 : jsTruthy ud.personalInfo.dateOfBirth = true)
    (h6 : ud.education.isEmpty = false)
    (h7 : (ud.education.filter (fun e => !jsTruthy e.degree || !jsTruthy e.dates)).isEmpty = true)
    (h8 : ud.experience.isEmpty = false)
    (h9 : (ud.experience.filter (fun e => !jsTruthy e.title || !jsTruthy e.dates)).isEmpty = true)
    (h10 : ud.skills = [])
    (h11 : ud.languages = [])
    (h12 : hasTok authKws (lowerStr (serializeUserData ud)) = false)
    (h13 : hasTok socialKws (lowerStr (serializeUserData ud)) = false) :
    identifyMissingFields ud =
      ["skills", "languages", "references", "workAuthorizationStatus",
       "socialMediaProfiles"] := by
  simp only [identifyMissingFields, h1, h2, h3, h4, h5, h6, h7, h8, h9, h10, h11, h12, h13]
  rfl

theorem spec_C1_witness :
    jsTruthy wProfile.personalInfo.fullName = true ∧
    wProfile.skills = [] ∧ wProfile.languages = [] ∧
    hasTok authKws (lowerStr (serializeUserData wProfile)) = false ∧
    hasTok socialKws (lowerStr (serializeUserData wProfile)) = false ∧
    identifyMissingFields wProfile =
      ["skills", "languages", "references", "workAuthorizationStatus",
       "socialMediaProfiles"] :=
  ⟨by decide, by decide, by decide, by decide, by decide,
   spec_C1 wProfile (by decide) (by decide) (by decide) (by decide) (by decide) (by decide)
     (by decide) (by decide) (by decide) (by decide) (by decide) (by decide) (by decide)⟩

/-- C5: every entry the extractors append has a non-empty primary identifying
field — education entries a non-empty institution, experience entries a
non-empty company, language entries a non-empty language name and
certification entries a non-empty name; a candidate without its primary
anchor is never emitted. -/
theorem spec_C5 (t : Chars) :
    (∀ e ∈ eduEntries t, e.institution ≠ "") ∧
    (∀ e ∈ expEntries t, e.company ≠ "") ∧
    (∀ e ∈ langEntries t, e.language ≠ "") ∧
    (∀ e ∈ certEntries t, e.name ≠ "") := by
  refine ⟨?_, ?_, ?_, ?_⟩
  · intro e he
    unfold eduEntries at he
    cases h : sectionCapture eduOpen eduClose t with
    | none => rw [h] at he; simp at he
    | some sec =>
      rw [h] at he
      exact eduLoop_institution sec (sec.length + 1) 0 sec e he
  · intro e he
    unfold expEntries at he
    cases h : sectionCapture expOpen expClose t with
    | none => rw [h] at he; simp at he
    | some sec =>
      rw [h] at he
      exact expLoop_company sec (sec.length + 1) 0 sec e he
  · intro e he
    exact langEntries_language he
  · intro e he
    unfold certEntries at he
    cases h : sectionCapture certOpen certClose t with
    | none => rw [h] at he; simp at he
    | some sec =>
      rw [h] at he
      exact certLoop_name sec (sec.length + 1) 0 sec e he

theorem spec_C5_witness :
    (EducationEntry.mk "EDUCATION University 2020" none (some "2020") none ∈
        eduEntries (str "EDUCATION University 2020") ∧
      (EducationEntry.mk "EDUCATION University 2020" none (some "2020") none).institution ≠ "") ∧
    (ExperienceEntry.mk "EXPERIENCE Acme 2020 - 2021" none (some "2020 - 2021") "" ∈
        expEntries (str "EXPERIENCE Acme 2020 - 2021") ∧
      (ExperienceEntry.mk "EXPERIENCE Acme 2020 - 2021" none (some "2020 - 2021") "").company ≠ "") ∧
    (LanguageEntry.mk "English" "fluent" ∈ langEntries (str "English fluent") ∧
      (LanguageEntry.mk "English" "fluent").language ≠ "") ∧
    (CertificationEntry.mk "CERTIFICATIONS AWS Certification" (some "2020") none ∈
        certEntries (str "CERTIFICATIONS AWS Certification 2020") ∧
      (CertificationEntry.mk "CERTIFICATIONS AWS Certification" (some "2020") none).name ≠ "") :=
  ⟨⟨by decide, (spec_C5 (str "EDUCATION University 2020")).1 _ (by decide)⟩,
   ⟨by decide, (spec_C5 (str "EXPERIENCE Acme 2020 - 2021")).2.1 _ (by decide)⟩,
   ⟨by decide, (spec_C5 (str "English fluent")).2.2.1 _ (by decide)⟩,
   ⟨by decide, (spec_C5 (str "CERTIFICATIONS AWS Certification 2020")).2.2.2 _ (by decide)⟩⟩

theorem skillsResult_ne_nil {old : List String} {t : Chars} (h : old ≠ []) :
    skillsResult old t ≠ [] := by
  unfold skillsResult
  cases hsec : sectionCapture skillsOpen skillsClose t with
  | none => exact h
  | some sec =>
    unfold sectionCapture at hsec
    cases hsp : splitTok skillsOpen t with
    | none => rw [hsp] at hsec; simp at hsec
    | some v =>
      obtain ⟨pre, op, r1⟩ := v
      rw [hsp] at hsec
      dsimp only at hsec
      obtain ⟨tok, htok, hmap⟩ := splitTok_spec hsp
      have hop : ∀ X, skillsListOf (op ++ X) ≠ [] := fun X => skillsListOf_op htok hmap
      cases hsp2 : splitTok skillsClose r1 with
      | none =>
        rw [hsp2] at hsec
        simp at hsec
        rw [← hsec]
        simp only [ne_eq, List.map_eq_nil_iff]
        exact hop r1
      | some v2 =>
        obtain ⟨mid, cl, rest⟩ := v2
        rw [hsp2] at hsec
        simp at hsec
        rw [← hsec]
        simp only [ne_eq, List.map_eq_nil_iff]
        exact hop (mid ++ cl)

/-- C4: profile assembly is monotone — extraction never replaces a populated
personal-info field with null, never empties a non-empty skills list, and only
ever appends to the entry lists; in particular, an extraction pass with no
personal-info matches and no skills-section match leaves the stored personal
info and skills exactly as they were. -/
theorem spec_C4 (ud : UserData) (t : Chars) :
    ((ud.personalInfo.fullName.isSome = true →
        (extractInformation ud t).personalInfo.fullName.isSome = true) ∧
     (ud.personalInfo.email.isSome = true →
        (extractInformation ud t).personalInfo.email.isSome = true) ∧
     (ud.personalInfo.phone.isSome = true →
        (extractInformation ud t).personalInfo.phone.isSome = true) ∧
     (ud.personalInfo.location.isSome = true →
        (extractInformation ud t).personalInfo.location.isSome = true) ∧
     (ud.personalInfo.dateOfBirth.isSome = true →
        (extractInformation ud t).personalInfo.dateOfBirth.isSome = true) ∧
     (ud.skills ≠ [] → (extractInformation ud t).skills ≠ []) ∧
     (∃ u, (extractInformation ud t).education = ud.education ++ u) ∧
     (∃ u, (extractInformation ud t).experience = ud.experience ++ u) ∧
     (∃ u, (extractInformation ud t).languages = ud.languages ++ u) ∧
     (∃ u, (extractInformation ud t).certifications = ud.certifications ++ u)) ∧
    (nameFind t = none → emailFind t = none → phoneFind t = none → locFind t = none →
      dobFind t = none → sectionCapture skillsOpen skillsClose t = none →
      (extractInformation ud t).personalInfo = ud.personalInfo ∧
        (extractInformation ud t).skills = ud.skills) := by
  rw [extractInformation_eq]
  constructor
  · refine ⟨?_, ?_, ?_, ?_, ?_, ?_, ⟨_, rfl⟩, ⟨_, rfl⟩, ⟨_, rfl⟩, ⟨_, rfl⟩⟩
    · intro h
      exact updField_isSome h
    · intro h
      exact updField_isSome h
    · intro h
      exact updField_isSome h
    · intro h
      exact updField_isSome h
    · intro h
      exact updField_isSome h
    · intro h
      exact skillsResult_ne_nil h
  · intro hn hem hph hlo hdo hsec
    constructor
    · show extractPersonalInfoFields ud.personalInfo t = ud.personalInfo
      unfold extractPersonalInfoFields
      rw [hn, hem, hph, hlo, hdo]
      rfl
    · show skillsResult ud.skills t = ud.skills
      unfold skillsResult
      rw [hsec]

theorem spec_C4_witness :
    nameFind (str "zzz") = none ∧ emailFind (str "zzz") = none ∧
    phoneFind (str "zzz") = none ∧ locFind (str "zzz") = none ∧
    dobFind (str "zzz") = none ∧
    sectionCapture skillsOpen skillsClose (str "zzz") = none ∧
    wProfile.personalInfo.fullName.isSome = true ∧
    (extractInformation wProfile (str "zzz")).personalInfo.fullName.isSome = true ∧
    (extractInformation wProfile (str "zzz")).personalInfo = wProfile.personalInfo ∧
    (extractInformation wProfile (str "zzz")).skills = wProfile.skills :=
  ⟨by decide, by decide, by decide, by decide, by decide, by decide, by decide,
   (spec_C4 wProfile (str "zzz")).1.1 (by decide),
   ((spec_C4 wProfile (str "zzz")).2 (by decide) (by decide) (by decide) (by decide)
     (by decide) (by decide)).1,
   ((spec_C4 wProfile (str "zzz")).2 (by decide) (by decide) (by decide) (by decide)
     (by decide) (by decide)).2⟩

/-- C3 (amended): a second extraction pass on the same text leaves the
personal info and the skills list unchanged but appends the per-text entry
lists again to education, experience, languages and certifications; hence the
full extraction is idempotent exactly when the text yields no entries at
all. -/
theorem spec_C3 (ud : UserData) (t : Chars) :
    (extractInformation (extractInformation ud t) t =
      { extractInformation ud t with
          education := (extractInformation ud t).education ++ eduEntries t
          experience := (extractInformation ud t).experience ++ expEntries t
          languages := (extractInformation ud t).languages ++ langEntries t
          certifications := (extractInformation ud t).certifications ++ certEntries t }) ∧
    (extractInformation (extractInformation ud t) t = extractInformation ud t ↔
      (eduEntries t = [] ∧ expEntries t = [] ∧ langEntries t = [] ∧ certEntries t = [])) := by
  have h1 := extractInformation_eq ud t
  have h2 := extractInformation_eq (extractInformation ud t) t
  have hmain : extractInformation (extractInformation ud t) t =
      { extractInformation ud t with
          education := (extractInformation ud t).education ++ eduEntries t
          experience := (extractInformation ud t).experience ++ expEntries t
          languages := (extractInformation ud t).languages ++ langEntries t
          certifications := (extractInformation ud t).certifications ++ certEntries t } := by
    rw [h2]
    conv_rhs => rw [h1]
    rw [h1]
    simp [extractPersonalInfoFields_idem, skillsResult_idem]
  refine ⟨hmain, ?_⟩
  constructor
  · intro he
    rw [hmain] at he
    have hedu := congrArg UserData.education he
    have hexp := congrArg UserData.experience he
    have hlang := congrArg UserData.languages he
    have hcert := congrArg UserData.certifications he
    dsimp at hedu hexp hlang hcert
    refine ⟨?_, ?_, ?_, ?_⟩
    · have := congrArg List.length hedu
      simp at this
      exact this
    · have := congrArg List.length hexp
      simp at this
      exact this
    · have := congrArg List.length hlang
      simp at this
      exact this
    · have := congrArg List.length hcert
      simp at this
      exact this
  · intro hz
    rw [hmain, hz.1, hz.2.1, hz.2.2.1, hz.2.2.2]
    simp

theorem spec_C3_witness :
    (extractInformation (extractInformation emptyUserData (str "English fluent"))
        (str "English fluent") =
      extractInformation emptyUserData (str "English fluent")) ↔
    (eduEntries (str "English fluent") = [] ∧ expEntries (str "English fluent") = [] ∧
      langEntries (str "English fluent") = [] ∧ certEntries (str "English fluent") = []) :=
  (spec_C3 emptyUserData (str "English fluent")).2

/-- C3 counterexample to the claim as stated: extraction is not idempotent —
on the text "English fluent" the second pass pushes a duplicate language
entry, so the resulting profile differs from the single-pass profile. -/
theorem spec_C3_cex :
    extractInformation (extractInformation emptyUserData (str "English fluent"))
        (str "English fluent") ≠
      extractInformation emptyUserData (str "English fluent") := by
  decide

/-- C2 (amended): (a) on a text containing no recognized section heading,
every section capture is empty and no education, experience or certification
entries are produced, and the skills list is untouched; (b) for each of the
five section regexes, on text of shape `pre ++ opener ++ mid ++ closer ++ rest`
where no opener token occurs inside `pre` (the given opener is leftmost) and
no closer token occurs inside `mid` (the given closer is earliest), the
capture is exactly `opener ++ mid ++ closer`: it stops at the end of that
closer token, which is itself included; (c) the closer vocabularies are
per-section and incomplete, so the boundary tracks closer tokens, not the true
next heading: LANGUAGES is not an education closer, so an education capture
swallows a following languages section whole (while the languages section's
own capture starts at its heading, overlapping it), and the bare closer word
occurring mid-body (here "work") truncates the education capture before the
true next heading. -/
theorem spec_C2 :
    (∀ (t : Chars) (ud : UserData),
      hasTok eduOpen t = false → hasTok expOpen t = false → hasTok skillsOpen t = false →
      hasTok langOpen t = false → hasTok certOpen t = false →
      sectionCapture eduOpen eduClose t = none ∧
      sectionCapture expOpen expClose t = none ∧
      sectionCapture skillsOpen skillsClose t = none ∧
      sectionCapture langOpen langClose t = none ∧
      sectionCapture certOpen certClose t = none ∧
      eduEntries t = [] ∧ expEntries t = [] ∧ certEntries t = [] ∧
      extractSkills ud t = ud) ∧
    (∀ oc ∈ sectionPairs, ∀ pre op mid cl rest : Chars,
      (∀ i, i < pre.length →
        hitAt oc.1 ((pre ++ (op ++ (mid ++ (cl ++ rest)))).drop i) = none) →
      hitAt oc.1 (op ++ (mid ++ (cl ++ rest))) = some (op, mid ++ (cl ++ rest)) →
      (∀ i, i < mid.length → hitAt oc.2 ((mid ++ (cl ++ rest)).drop i) = none) →
      hitAt oc.2 (cl ++ rest) = some (cl, rest) →
      sectionCapture oc.1 oc.2 (pre ++ (op ++ (mid ++ (cl ++ rest)))) =
        some (op ++ mid ++ cl)) ∧
    (sectionCapture eduOpen eduClose (str "EDUCATION stuff LANGUAGES English words") =
        some (str "EDUCATION stuff LANGUAGES English words") ∧
      sectionCapture langOpen langClose (str "EDUCATION stuff LANGUAGES English words") =
        some (str "LANGUAGES English words") ∧
      sectionCapture eduOpen eduClose (str "EDUCATION I work hard SKILLS Python") =
        some (str "EDUCATION I work")) := by
  refine ⟨?_, ?_, by decide, by decide, by decide⟩
  · intro t ud h1 h2 h3 h4 h5
    have s1 : sectionCapture eduOpen eduClose t = none := by
      unfold sectionCapture
      rw [splitTok_none_of_hasTok_false h1]
    have s2 : sectionCapture expOpen expClose t = none := by
      unfold sectionCapture
      rw [splitTok_none_of_hasTok_false h2]
    have s3 : sectionCapture skillsOpen skillsClose t = none := by
      unfold sectionCapture
      rw [splitTok_none_of_hasTok_false h3]
    have s4 : sectionCapture langOpen langClose t = none := by
      unfold sectionCapture
      rw [splitTok_none_of_hasTok_false h4]
    have s5 : sectionCapture certOpen certClose t = none := by
      unfold sectionCapture
      rw [splitTok_none_of_hasTok_false h5]
    refine ⟨s1, s2, s3, s4, s5, ?_, ?_, ?_, ?_⟩
    · unfold eduEntries
      rw [s1]
    · unfold expEntries
      rw [s2]
    · unfold certEntries
      rw [s5]
    · unfold extractSkills
      rw [s3]
  · intro oc _ pre op mid cl rest H1 H2 H3 H4
    exact sectionCapture_exact pre op mid cl rest H1 H2 H3 H4

theorem spec_C2_witness :
    (hasTok eduOpen (str "hello there") = false ∧
      sectionCapture eduOpen eduClose (str "hello there") = none ∧
      eduEntries (str "hello there") = [] ∧
      extractSkills emptyUserData (str "hello there") = emptyUserData) ∧
    ((eduOpen, eduClose) ∈ sectionPairs ∧
      hitAt eduOpen (str "EDUCATION" ++ (str " stuff " ++ (str "SKILLS" ++ str " tail"))) =
        some (str "EDUCATION", str " stuff " ++ (str "SKILLS" ++ str " tail")) ∧
      sectionCapture eduOpen eduClose
          (str "x " ++ (str "EDUCATION" ++ (str " stuff " ++ (str "SKILLS" ++ str " tail")))) =
        some (str "EDUCATION" ++ str " stuff " ++ str "SKILLS")) :=
  ⟨⟨by decide,
    ((spec_C2.1 (str "hello there") emptyUserData (by decide) (by decide) (by decide)
      (by decide) (by decide)).1),
    ((spec_C2.1 (str "hello there") emptyUserData (by decide) (by decide) (by decide)
      (by decide) (by decide)).2.2.2.2.2.1),
    ((spec_C2.1 (str "hello there") emptyUserData (by decide) (by decide) (by decide)
      (by decide) (by decide)).2.2.2.2.2.2.2.2)⟩,
   ⟨by decide, by decide,
    spec_C2.2.1 (eduOpen, eduClose) (by decide) (str "x ") (str "EDUCATION")
      (str " stuff ") (str "SKILLS") (str " tail")
      (by decide) (by decide) (by decide) (by decide)⟩⟩

/-- C2 counterexample to the claim as stated: the education capture on
"EDUCATION, Studied, SKILLS, Python" (with newlines) is
"EDUCATION\nStudied\nSKILLS" — it contains the line "SKILLS", which is
exactly the heading line of the following skills section, whose own capture
also starts with it.  The closing boundary includes the next heading token. -/
theorem spec_C2_cex :
    sectionCapture eduOpen eduClose (str "EDUCATION\nStudied\nSKILLS\nPython") =
      some (str "EDUCATION\nStudied\nSKILLS") ∧
    containsSub (str "SKILLS") (str "EDUCATION\nStudied\nSKILLS") = true ∧
    sectionCapture skillsOpen skillsClose (str "EDUCATION\nStudied\nSKILLS\nPython") =
      some (str "SKILLS\nPython") := by
  refine ⟨by decide, by decide, by decide⟩

end JobApp
